import Mathlib

/-!
Verification of the GitHub-to-MongoDB ingestion pipeline
(`github_mongodb_app.py`): a shallow embedding of its fetch, pagination,
rate-limit and upsert-store operations, with theorems checking the
specification's claims about them.

Modelling conventions:
* A JSON document / Python dict is an association list `Doc` of field
  names to `Value`s.  Python dicts and MongoDB documents cannot carry a
  duplicate key, so theorems about records occasionally assume key lists
  are duplicate-free.
* MongoDB's `update_one(filter, {'$set': doc}, upsert=True)` updates the
  first document matching the filter, merging the given fields into it,
  or inserts the filter's equality fields with the update applied when no
  document matches (`updateOneUpsert`).
* `datetime.now(timezone.utc)` is an abstract monotone clock tick passed
  to the store operations as a `Nat`; `time.time()` and rate-limit epochs
  are `Int` seconds.
* An HTTP response is a status plus a parsed JSON body; `requests`'
  `Response.raise_for_status` raises exactly for statuses in 400..599.
* A paginated source is the list of pages the server would return for
  pages 1, 2, ...; a request beyond the list returns an empty page.
-/

/-- A JSON-ish value stored in a document field.  `vTime` is the write-time
timestamp value produced by `datetime.now(timezone.utc)`. -/
inductive Value where
  | vInt (n : Int)
  | vStr (s : String)
  | vTime (t : Nat)
  | vNull
deriving DecidableEq, Repr

/-- A document / Python dict: an association list from field names to values. -/
abbrev Doc := List (String × Value)

/-- `d[k]` lookup: the value of the first entry with key `k`. -/
def getField (d : Doc) (k : String) : Option Value :=
  (d.find? (fun p => p.1 == k)).map (fun p => p.2)

/-- Python's `k in d` membership test on a dict. -/
def hasKey (d : Doc) (k : String) : Bool :=
  (getField d k).isSome

/-- Python's `d[k] = v` dict assignment: replace the entry for `k` in place,
or append a new entry when `k` is absent. -/
def setField : Doc → String → Value → Doc
  | [], k, v => [(k, v)]
  | p :: d, k, v => if p.1 == k then (k, v) :: d else p :: setField d k v

/-- MongoDB `$set` of all fields of `u` into document `d`, in order. -/
def setFields (d : Doc) (u : Doc) : Doc :=
  u.foldl (fun acc p => setField acc p.1 p.2) d

/-- The value the last write of key `k` in the update list `u` leaves behind
(the effective value `$set u` gives to field `k`). -/
def lastVal (u : Doc) (k : String) : Option Value :=
  (u.reverse.find? (fun p => p.1 == k)).map (fun p => p.2)

/-- A MongoDB equality filter: the document matches when every filter field
is present with the given value. -/
def matchesFilter (f : Doc) (d : Doc) : Bool :=
  f.all (fun p => getField d p.1 == some p.2)

/-- Index of the first document of the collection matching the filter. -/
def firstMatch (f : Doc) : List Doc → Option Nat
  | [] => none
  | d :: c => if matchesFilter f d then some 0 else (firstMatch f c).map (· + 1)

/-- `collection.update_one(f, {'$set': u}, upsert=True)`: merge `u` into the
first matching document, or insert (filter fields plus update) when none
matches. -/
def updateOneUpsert (c : List Doc) (f u : Doc) : List Doc :=
  match firstMatch f c with
  | some i => c.set i (setFields (c.getD i []) u)
  | none => c ++ [setFields f u]

/-- `MongoDBManager._add_timestamp`: stamp `collected_at` with the current
time just before the write. -/
def add_timestamp (now : Nat) (d : Doc) : Doc :=
  setField d "collected_at" (Value.vTime now)

/-- Python `str()` of a stored value (used by `store_repositories`, which
returns `str(repo['id'])` per record). -/
def pyStr : Value → String
  | .vInt n => toString n
  | .vStr s => s
  | .vTime t => toString t
  | .vNull => "None"

/-- The shape every `store_*` method of `MongoDBManager` shares: per record,
optionally skip it, build the written document (`proc` = timestamp plus
foreign-key injection), build the upsert filter, upsert, and collect a
returned key value.  A `none` from `filt`/`ret` is a Python `KeyError`. -/
structure StoreParams where
  skip : Doc → Bool
  proc : Doc → Doc
  filt : Doc → Option Doc
  ret : Doc → Option Value

/-- The common store loop: upserts each non-skipped record in order and
returns the final collection plus the per-record key values. -/
def upsertLoop (P : StoreParams) : List Doc → List Doc → Option (List Doc × List Value)
  | c, [] => some (c, [])
  | c, r :: rest =>
    if P.skip r then upsertLoop P c rest
    else
      (P.filt (P.proc r)).bind (fun f =>
        (P.ret (P.proc r)).bind (fun v =>
          (upsertLoop P (updateOneUpsert c f (P.proc r)) rest).map
            (fun cr => (cr.1, v :: cr.2))))

/-- The per-record behaviour of `MongoDBManager.store_repositories`:
timestamp, upsert keyed on `id`, return `str(repo['id'])`. -/
def repoParams (now : Nat) : StoreParams where
  skip := fun _ => false
  proc := fun repo => add_timestamp now repo
  filt := fun repo => (getField repo "id").map (fun v => [("id", v)])
  ret := fun repo => (getField repo "id").map (fun v => Value.vStr (pyStr v))

/-- `MongoDBManager.store_repositories`. -/
def store_repositories (now : Nat) (c : List Doc) (repositories : List Doc) :
    Option (List Doc × List Value) :=
  upsertLoop (repoParams now) c repositories

/-- The per-record behaviour of `MongoDBManager.store_commits`: timestamp,
inject `repository_id`, upsert keyed on `(sha, repository_id)`, return the
sha. -/
def commitParams (now : Nat) (repository_id : Int) : StoreParams where
  skip := fun _ => false
  proc := fun commit => setField (add_timestamp now commit) "repository_id" (Value.vInt repository_id)
  filt := fun commit => (getField commit "sha").map
    (fun s => [("sha", s), ("repository_id", Value.vInt repository_id)])
  ret := fun commit => getField commit "sha"

/-- `MongoDBManager.store_commits`. -/
def store_commits (now : Nat) (repository_id : Int) (c : List Doc) (commits : List Doc) :
    Option (List Doc × List Value) :=
  upsertLoop (commitParams now repository_id) c commits

/-- The per-record behaviour of `MongoDBManager.store_contributors`:
timestamp, inject `repository_id`, upsert keyed on
`(login, repository_id)`, return the login. -/
def contributorParams (now : Nat) (repository_id : Int) : StoreParams where
  skip := fun _ => false
  proc := fun contributor => setField (add_timestamp now contributor) "repository_id" (Value.vInt repository_id)
  filt := fun contributor => (getField contributor "login").map
    (fun l => [("login", l), ("repository_id", Value.vInt repository_id)])
  ret := fun contributor => getField contributor "login"

/-- `MongoDBManager.store_contributors`. -/
def store_contributors (now : Nat) (repository_id : Int) (c : List Doc) (contributors : List Doc) :
    Option (List Doc × List Value) :=
  upsertLoop (contributorParams now repository_id) c contributors

/-- The per-record behaviour of `MongoDBManager.store_pull_requests`:
timestamp, inject `repository_id`, upsert keyed on `id`, return the PR
number. -/
def prParams (now : Nat) (repository_id : Int) : StoreParams where
  skip := fun _ => false
  proc := fun pr => setField (add_timestamp now pr) "repository_id" (Value.vInt repository_id)
  filt := fun pr => (getField pr "id").map (fun v => [("id", v)])
  ret := fun pr => getField pr "number"

/-- `MongoDBManager.store_pull_requests`. -/
def store_pull_requests (now : Nat) (repository_id : Int) (c : List Doc) (pull_requests : List Doc) :
    Option (List Doc × List Value) :=
  upsertLoop (prParams now repository_id) c pull_requests

/-- The per-record behaviour of `MongoDBManager.store_issues`: skip records
carrying a `pull_request` marker (GitHub returns PRs as issues), timestamp,
inject `repository_id`, upsert keyed on `id`, return the issue number. -/
def issueParams (now : Nat) (repository_id : Int) : StoreParams where
  skip := fun issue => hasKey issue "pull_request"
  proc := fun issue => setField (add_timestamp now issue) "repository_id" (Value.vInt repository_id)
  filt := fun issue => (getField issue "id").map (fun v => [("id", v)])
  ret := fun issue => getField issue "number"

/-- `MongoDBManager.store_issues`. -/
def store_issues (now : Nat) (repository_id : Int) (c : List Doc) (issues : List Doc) :
    Option (List Doc × List Value) :=
  upsertLoop (issueParams now repository_id) c issues

/-- Python truthiness of an `Optional[int]` argument (`if issue_id:`):
false for `None` and for `0`. -/
def truthyInt : Option Int → Bool
  | none => false
  | some i => !(i == 0)

/-- The per-record behaviour of `MongoDBManager.store_comments`: timestamp,
inject `repository_id`, inject `issue_id` / `pull_request_id` when the
corresponding argument is truthy, upsert keyed on `id`, return the comment
id. -/
def commentParams (now : Nat) (repository_id : Int)
    (issue_id pull_request_id : Option Int) : StoreParams where
  skip := fun _ => false
  proc := fun comment =>
    let c1 := setField (add_timestamp now comment) "repository_id" (Value.vInt repository_id)
    let c2 := if truthyInt issue_id
      then setField c1 "issue_id" (Value.vInt (issue_id.getD 0)) else c1
    if truthyInt pull_request_id
      then setField c2 "pull_request_id" (Value.vInt (pull_request_id.getD 0)) else c2
  filt := fun comment => (getField comment "id").map (fun v => [("id", v)])
  ret := fun comment => getField comment "id"

/-- `MongoDBManager.store_comments`. -/
def store_comments (now : Nat) (repository_id : Int)
    (issue_id pull_request_id : Option Int)
    (c : List Doc) (comments : List Doc) : Option (List Doc × List Value) :=
  upsertLoop (commentParams now repository_id issue_id pull_request_id) c comments

/-- Well-formedness of a record batch: every record is a Python dict, so its
key list carries no duplicate. -/
def WFRecords (rs : List Doc) : Prop :=
  ∀ r ∈ rs, (r.map Prod.fst).Nodup

/-- Two collections with the same document count and, position by position,
the same content on every field other than `collected_at` — the claim's
"same document count and content (modulo collected_at)". -/
def SimEq (c c' : List Doc) : Prop :=
  c.length = c'.length ∧
  ∀ j k, k ≠ "collected_at" → getField (c.getD j []) k = getField (c'.getD j []) k

/-- The page-accumulation loop shared by `get_repositories` / `get_issues` /
`get_pull_requests`: request page `page`, stop on an empty page, otherwise
accumulate and stop after a short page.  The source is the list of pages the
server returns for pages 1, 2, ...; a request beyond it yields an empty
page.  Returns the accumulated items and the list of page numbers
requested. -/
def paginateAux (perPage : Nat) : List (List α) → Nat → List α × List Nat
  | [], page => ([], [page])
  | data :: rest, page =>
    if data.length = 0 then ([], [page])
    else if data.length < perPage then (data, [page])
    else
      let r := paginateAux perPage rest (page + 1)
      (data ++ r.1, page :: r.2)

/-- `GitHubAPIClient.get_repositories`: walk all pages starting at page 1. -/
def get_repositories (src : List (List α)) (perPage : Nat) : List α × List Nat :=
  paginateAux perPage src 1

/-- `GitHubAPIClient.get_issues`: same walk with page size fixed at 100. -/
def get_issues (src : List (List α)) : List α × List Nat :=
  paginateAux 100 src 1

/-- An HTTP response as the walks see it: status code and parsed JSON body. -/
structure Resp (α : Type) where
  status : Nat
  body : List α
deriving DecidableEq, Repr

/-- `requests.Response.raise_for_status`: raises `HTTPError` exactly for
client-error (4xx) and server-error (5xx) statuses; any other status
returns the body. -/
def raise_for_status (r : Resp α) : Except Nat (List α) :=
  if 400 ≤ r.status ∧ r.status < 600 then Except.error r.status else Except.ok r.body

/-- `GitHubAPIClient.get_commits`: the paginated commit walk; an HTTP 409
(empty repository) on any page ends the walk with the commits accumulated
so far, any other `HTTPError` propagates. -/
def get_commits : List (Resp α) → Nat → Except Nat (List α)
  | [], _ => Except.ok []
  | r :: rest, perPage =>
    match raise_for_status r with
    | Except.error s => if s = 409 then Except.ok [] else Except.error s
    | Except.ok data =>
      if data.length = 0 then Except.ok []
      else if data.length < perPage then Except.ok data
      else
        match get_commits rest perPage with
        | Except.error s => Except.error s
        | Except.ok commits => Except.ok (data ++ commits)

/-- `GitHubAPIClient.get_contributors`: a single request; an HTTP 404 is
reinterpreted as an empty contributor list, any other `HTTPError`
propagates. -/
def get_contributors (r : Resp α) : Except Nat (List α) :=
  match raise_for_status r with
  | Except.ok data => Except.ok data
  | Except.error s => if s = 404 then Except.ok [] else Except.error s

/-- Rate-limit bookkeeping of `GitHubAPIClient`. -/
structure ClientState where
  rate_limit_remaining : Int
  rate_limit_reset : Int
deriving DecidableEq, Repr

/-- `GitHubAPIClient._check_rate_limit`, returning the number of seconds the
call sleeps: when at most one request remains, sleep until the reset time
(never a negative amount). -/
def check_rate_limit (remaining reset now : Int) : Int :=
  if remaining ≤ 1 then
    let sleep_time := max 0 (reset - now)
    if 0 < sleep_time then sleep_time else 0
  else 0

/-- Errors `_make_request` can raise: a network-level failure, or an
`HTTPError` carrying the response status. -/
inductive ReqError where
  | transport
  | http (status : Nat)
deriving DecidableEq, Repr

/-- The wire-level outcome of `session.get`: a response with rate-limit
headers and a body, or a transport failure. -/
structure HttpResponse (α : Type) where
  status : Nat
  remainingHeader : Option Int
  resetHeader : Option Int
  body : List α
deriving DecidableEq, Repr

/-- `GitHubAPIClient._make_request`: sleep per the rate limit, perform the
request, overwrite the rate-limit state from the response headers (before
`raise_for_status` can raise), then raise on 4xx/5xx or return the body.
Returns (seconds slept, new client state, result). -/
def make_request (st : ClientState) (now : Int) (wire : Except Unit (HttpResponse α)) :
    Int × ClientState × Except ReqError (List α) :=
  let slept := check_rate_limit st.rate_limit_remaining st.rate_limit_reset now
  match wire with
  | Except.error _ => (slept, st, Except.error ReqError.transport)
  | Except.ok resp =>
    let st' : ClientState :=
      ⟨resp.remainingHeader.getD 0, resp.resetHeader.getD (now + 3600)⟩
    if 400 ≤ resp.status ∧ resp.status < 600 then
      (slept, st', Except.error (ReqError.http resp.status))
    else
      (slept, st', Except.ok resp.body)

/-- A fake paginated source with pages of sizes 100, 100, 100, 37. -/
def pagesA : List (List Nat) :=
  [List.replicate 100 0, List.replicate 100 0, List.replicate 100 0, List.replicate 37 0]

/-- A fake paginated source with pages of sizes 100, 100, 0. -/
def pagesB : List (List Nat) :=
  [List.replicate 100 0, List.replicate 100 0, []]

/-- The seconds slept by `_make_request` are exactly what
`_check_rate_limit` computes from the pre-call state. -/
theorem make_request_slept (st : ClientState) (now : Int)
    (wire : Except Unit (HttpResponse α)) :
    (make_request st now wire).1 =
      check_rate_limit st.rate_limit_remaining st.rate_limit_reset now := by
  cases wire with
  | error e => rfl
  | ok resp =>
    simp only [make_request]
    split <;> rfl

/-- Characterization of the sleep duration computed by `_check_rate_limit`. -/
theorem check_rate_limit_eq (remaining reset now : Int) :
    check_rate_limit remaining reset now =
      if remaining ≤ 1 then max 0 (reset - now) else 0 := by
  simp only [check_rate_limit]
  split_ifs <;> omega

/-- Claim C10: every store operation called with an empty record list returns
an empty key list and leaves the stored collection unchanged. -/
theorem c10_empty_store_noop :
    (∀ now c, store_repositories now c [] = some (c, [])) ∧
    (∀ now rid c, store_commits now rid c [] = some (c, [])) ∧
    (∀ now rid c, store_contributors now rid c [] = some (c, [])) ∧
    (∀ now rid c, store_pull_requests now rid c [] = some (c, [])) ∧
    (∀ now rid c, store_issues now rid c [] = some (c, [])) ∧
    (∀ now rid iid pid c, store_comments now rid iid pid c [] = some (c, [])) :=
  ⟨fun _ _ => rfl, fun _ _ _ => rfl, fun _ _ _ => rfl, fun _ _ _ => rfl,
   fun _ _ _ => rfl, fun _ _ _ _ _ => rfl⟩

/-- Claim C5: before every fetch, a client with `remaining <= 1` and a reset
`T >= 0` seconds in the future sleeps exactly `T = max 0 (reset - now)`
seconds before issuing the request; with `remaining > 1` or a reset in the
past, no wait occurs. -/
theorem c5_rate_limit_blocking :
    (∀ (st : ClientState) (now T : Int) (wire : Except Unit (HttpResponse Nat)),
      st.rate_limit_remaining ≤ 1 → st.rate_limit_reset - now = T → 0 ≤ T →
      (make_request st now wire).1 = T) ∧
    (∀ (st : ClientState) (now : Int) (wire : Except Unit (HttpResponse Nat)),
      1 < st.rate_limit_remaining → (make_request st now wire).1 = 0) ∧
    (∀ (st : ClientState) (now : Int) (wire : Except Unit (HttpResponse Nat)),
      st.rate_limit_reset ≤ now → (make_request st now wire).1 = 0) := by
  refine ⟨?_, ?_, ?_⟩ <;> intro st now
  · intro T wire h1 h2 h3
    rw [make_request_slept, check_rate_limit_eq, if_pos h1]
    omega
  · intro wire h1
    rw [make_request_slept, check_rate_limit_eq, if_neg (by omega)]
  · intro wire h1
    rw [make_request_slept, check_rate_limit_eq]
    split <;> omega

/-- Witness for C5 at a concrete state: remaining 1, reset 30 seconds ahead. -/
theorem c5_witness :
    (make_request ⟨1, 130⟩ 100 (Except.error () : Except Unit (HttpResponse Nat))).1 = 30 :=
  c5_rate_limit_blocking.1 ⟨1, 130⟩ 100 30 (Except.error ()) (by decide) (by decide) (by decide)

/-- Claim C7: after each call that yields a response, the client's
`rate_limit_remaining` and `rate_limit_reset` are overwritten from the
response's rate-limit headers regardless of their prior values — also when
the response status is a 4xx/5xx error, since the update happens before
`raise_for_status` raises. -/
theorem c7_rate_limit_headers_authoritative :
    ∀ (st : ClientState) (now : Int) (resp : HttpResponse Nat),
      ((make_request st now (Except.ok resp)).2.1 =
        ⟨resp.remainingHeader.getD 0, resp.resetHeader.getD (now + 3600)⟩) ∧
      (400 ≤ resp.status ∧ resp.status < 600 →
        (make_request st now (Except.ok resp)).2.2 =
          Except.error (ReqError.http resp.status)) ∧
      (¬(400 ≤ resp.status ∧ resp.status < 600) →
        (make_request st now (Except.ok resp)).2.2 = Except.ok resp.body) := by
  intro st now resp
  refine ⟨?_, ?_, ?_⟩
  · simp only [make_request]
    split <;> rfl
  · intro h
    simp only [make_request]
    rw [if_pos h]
  · intro h
    simp only [make_request]
    rw [if_neg h]

/-- Witness for C7: a 500 response still overwrites the rate-limit state. -/
theorem c7_witness :
    (make_request ⟨5000, 0⟩ 100 (Except.ok (⟨500, some 42, some 777, []⟩ : HttpResponse Nat))).2.1
        = ⟨42, 777⟩ ∧
    (make_request ⟨5000, 0⟩ 100 (Except.ok (⟨500, some 42, some 777, []⟩ : HttpResponse Nat))).2.2
        = Except.error (ReqError.http 500) :=
  ⟨(c7_rate_limit_headers_authoritative ⟨5000, 0⟩ 100 ⟨500, some 42, some 777, []⟩).1,
   (c7_rate_limit_headers_authoritative ⟨5000, 0⟩ 100 ⟨500, some 42, some 777, []⟩).2.1 (by decide)⟩

/-- Counterexample to claim C4 as stated: status 304 is a non-2xx status
that is neither 409 nor 404, yet a contributor fetch answering 304 does not
propagate an error — `raise_for_status` raises only for 4xx/5xx, so the
body is returned as a successful result. -/
theorem c4_counterexample :
    get_contributors (⟨304, [0]⟩ : Resp Nat) = Except.ok [0] := rfl

/-- Claim C4 (amended): an HTTP 409 on the first page of a commit walk makes
`get_commits` return an empty sequence without raising, an HTTP 404 on a
contributor fetch makes `get_contributors` return an empty list without
raising, and every other 4xx/5xx status (the statuses for which the HTTP
layer raises at all) propagates as an error from these walks. -/
theorem c4_empty_result_special_cases :
    (∀ (b : List Nat) (rest : List (Resp Nat)) (p : Nat),
      get_commits (⟨409, b⟩ :: rest) p = Except.ok []) ∧
    (∀ b : List Nat, get_contributors (⟨404, b⟩ : Resp Nat) = Except.ok []) ∧
    (∀ (s : Nat) (b : List Nat), 400 ≤ s → s < 600 → s ≠ 404 →
      get_contributors (⟨s, b⟩ : Resp Nat) = Except.error s) ∧
    (∀ (pre : List (Resp Nat)) (s : Nat) (b : List Nat) (rest : List (Resp Nat)) (p : Nat),
      400 ≤ s → s < 600 → s ≠ 409 → 0 < p →
      (∀ g ∈ pre, g.status < 400 ∧ g.body.length = p) →
      get_commits (pre ++ ⟨s, b⟩ :: rest) p = Except.error s) := by
  refine ⟨?_, ?_, ?_, ?_⟩
  · intro b rest p
    simp [get_commits, raise_for_status]
  · intro b
    simp [get_contributors, raise_for_status]
  · intro s b h1 h2 h3
    simp only [get_contributors, raise_for_status, if_pos (And.intro h1 h2)]
    rw [if_neg h3]
  · intro pre s b rest p h1 h2 h3 h4 h5
    induction pre with
    | nil =>
      simp only [List.nil_append, get_commits, raise_for_status, if_pos (And.intro h1 h2)]
      rw [if_neg h3]
    | cons g pre ih =>
      have hg := h5 g (List.mem_cons_self g pre)
      have hrest : ∀ g' ∈ pre, g'.status < 400 ∧ g'.body.length = p :=
        fun g' hm => h5 g' (List.mem_cons_of_mem g hm)
      have hok : raise_for_status g = Except.ok g.body := by
        unfold raise_for_status
        rw [if_neg (by omega)]
      simp only [List.cons_append, get_commits, hok]
      rw [if_neg (by omega), if_neg (by omega), List.append_eq, ih hrest]

/-- Witness for C4: concrete runs of each amended conjunct. -/
theorem c4_witness :
    get_contributors (⟨500, [7]⟩ : Resp Nat) = Except.error 500 ∧
    get_commits ([⟨200, [1, 2, 3]⟩, ⟨500, []⟩] : List (Resp Nat)) 3 = Except.error 500 :=
  ⟨c4_empty_result_special_cases.2.2.1 500 [7] (by decide) (by decide) (by decide),
   c4_empty_result_special_cases.2.2.2 [⟨200, [1, 2, 3]⟩] 500 [] [] 3
     (by decide) (by decide) (by decide) (by decide) (by decide)⟩

/-- Claim C9: an HTTP 409 on any page of a commit walk — not only the
first — terminates the walk without raising, returning the commits
accumulated from the pages already fetched; on a page `N > 1` (a non-empty
prefix of full pages) the result is a non-empty partial list. -/
theorem c9_commit_walk_409_early_stop :
    ∀ (pre : List (Resp Nat)) (b : List Nat) (rest : List (Resp Nat)) (p : Nat),
      0 < p →
      (∀ g ∈ pre, g.status < 400 ∧ g.body.length = p) →
      get_commits (pre ++ ⟨409, b⟩ :: rest) p =
        Except.ok ((pre.map (fun g => g.body)).flatten) ∧
      (pre ≠ [] → (pre.map (fun g => g.body)).flatten ≠ []) := by
  intro pre b rest p hp hpre
  constructor
  · induction pre with
    | nil =>
      simp [get_commits, raise_for_status]
    | cons g pre ih =>
      have hg := hpre g (List.mem_cons_self g pre)
      have hrest : ∀ g' ∈ pre, g'.status < 400 ∧ g'.body.length = p :=
        fun g' hm => hpre g' (List.mem_cons_of_mem g hm)
      have hok : raise_for_status g = Except.ok g.body := by
        unfold raise_for_status
        rw [if_neg (by omega)]
      simp only [List.cons_append, get_commits, hok]
      rw [if_neg (by omega), if_neg (by omega), List.append_eq, ih hrest]
      simp
  · intro hne
    cases pre with
    | nil => exact absurd rfl hne
    | cons g pre =>
      have hg := hpre g (List.mem_cons_self g pre)
      have hlen : g.body ≠ [] := by
        intro h
        have h2 := hg.2
        rw [h] at h2
        simp at h2
        omega
      simp only [List.map_cons, List.flatten_cons]
      exact fun hcontra => hlen (List.append_eq_nil.mp hcontra).1

/-- Witness for C9: a 409 on page 2 after a full first page yields that
page's 3 commits. -/
theorem c9_witness :
    get_commits ([⟨200, [1, 2, 3]⟩, ⟨409, []⟩] : List (Resp Nat)) 3 = Except.ok [1, 2, 3] :=
  (c9_commit_walk_409_early_stop [⟨200, [1, 2, 3]⟩] [] [] 3 (by decide)
    (by decide)).1

/-- Structure of every pagination walk: starting at `page`, the walk requests
consecutive page numbers; there is an `m` such that the first `m` pages are
full (non-empty, at least `perPage` items) and non-final, page `m + 1` is
final exactly because it is empty or shorter than `perPage`, and the items
returned are the concatenation of all requested pages. -/
theorem paginateAux_spec (perPage : Nat) (src : List (List α)) (page : Nat) :
    ∃ m, (paginateAux perPage src page).2 = List.range' page (m + 1) ∧
      (∀ j < m, src.getD j [] ≠ [] ∧ perPage ≤ (src.getD j []).length) ∧
      ((src.getD m []).length = 0 ∨ (src.getD m []).length < perPage) ∧
      (paginateAux perPage src page).1 =
        ((List.range (m + 1)).map (fun j => src.getD j [])).flatten := by
  induction src generalizing page with
  | nil =>
    refine ⟨0, ?_, ?_, ?_, ?_⟩
    · simp [paginateAux]
    · intro j hj
      omega
    · simp [List.getD]
    · simp [paginateAux, List.range_succ, List.getD]
  | cons data rest ih =>
    by_cases h0 : data.length = 0
    · refine ⟨0, ?_, ?_, ?_, ?_⟩
      · simp [paginateAux, h0]
      · intro j hj
        omega
      · left
        simpa using h0
      · have hdata : data = [] := List.length_eq_zero.mp h0
        simp [paginateAux, h0, List.range_succ, hdata]
    · by_cases h1 : data.length < perPage
      · refine ⟨0, ?_, ?_, ?_, ?_⟩
        · simp [paginateAux, h0, h1]
        · intro j hj
          omega
        · right
          simpa using h1
        · simp [paginateAux, h0, h1, List.range_succ]
      · obtain ⟨m, hm1, hm2, hm3, hm4⟩ := ih (page + 1)
        refine ⟨m + 1, ?_, ?_, ?_, ?_⟩
        · simp only [paginateAux, if_neg h0, if_neg h1]
          rw [List.range'_succ, hm1]
        · intro j hj
          cases j with
          | zero =>
            simp only [List.getD_cons_zero]
            refine ⟨fun h => h0 (by rw [h]; rfl), by omega⟩
          | succ j =>
            simpa using hm2 j (by omega)
        · simpa using hm3
        · simp only [paginateAux, if_neg h0, if_neg h1]
          rw [hm4]
          conv_rhs => rw [List.range_succ_eq_map]
          simp only [List.map_cons, List.flatten_cons, List.map_map, List.getD_cons_zero]
          have : ((fun j => (data :: rest).getD j []) ∘ Nat.succ) = fun j => rest.getD j [] := by
            funext j
            simp [Function.comp, List.getD_cons_succ]
          rw [this]

set_option maxRecDepth 4000 in
/-- Claim C2: every paginated walk requests pages 1, 2, ... consecutively,
a page is final exactly when its length is zero or less than the page size,
all pages are accumulated before returning; pages of sizes
[100, 100, 100, 37] yield 337 items in exactly 4 requests, and
[100, 100, 0] yield 200 items in 3 requests. -/
theorem c2_pagination_termination :
    (∀ (src : List (List Nat)) (perPage : Nat),
      ∃ m, (get_repositories src perPage).2 = List.range' 1 (m + 1) ∧
        (∀ j < m, src.getD j [] ≠ [] ∧ perPage ≤ (src.getD j []).length) ∧
        ((src.getD m []).length = 0 ∨ (src.getD m []).length < perPage) ∧
        (get_repositories src perPage).1 =
          ((List.range (m + 1)).map (fun j => src.getD j [])).flatten) ∧
    ((get_repositories pagesA 100).1.length = 337 ∧
      (get_repositories pagesA 100).2 = [1, 2, 3, 4]) ∧
    ((get_issues pagesB).1.length = 200 ∧ (get_issues pagesB).2 = [1, 2, 3]) := by
  refine ⟨fun src perPage => paginateAux_spec perPage src 1, ⟨?_, ?_⟩, ⟨?_, ?_⟩⟩ <;> decide

/-- Booleanized string equality, forward direction. -/
theorem beqt {a b : String} (h : a = b) : (a == b) = true := beq_iff_eq.mpr h

/-- Booleanized string disequality. -/
theorem beqf {a b : String} (h : a ≠ b) : (a == b) = false := by
  simp only [beq_eq_false_iff_ne, ne_eq]
  exact h

/-- Unfolding lookup over a cons cell. -/
theorem getField_cons (p : String × Value) (d : Doc) (k : String) :
    getField (p :: d) k = if p.1 == k then some p.2 else getField d k := by
  simp only [getField, List.find?]
  cases h : (p.1 == k) <;> simp

/-- Python dict lookup after assignment: reading key `k` after setting `k₀`
yields the assigned value at `k = k₀` and is unchanged otherwise. -/
theorem getField_setField (d : Doc) (k₀ : String) (v₀ : Value) (k : String) :
    getField (setField d k₀ v₀) k = if k = k₀ then some v₀ else getField d k := by
  induction d with
  | nil =>
    by_cases h : k = k₀
    · simp [setField, getField, List.find?, beqt h.symm, h]
    · simp [setField, getField, List.find?, beqf (fun hc => h hc.symm), h]
  | cons p d ih =>
    by_cases hp : p.1 = k₀
    · rw [show setField (p :: d) k₀ v₀ = (k₀, v₀) :: d by simp [setField, beqt hp]]
      by_cases h : k = k₀
      · simp [getField_cons, beqt h.symm, h]
      · rw [getField_cons, getField_cons, beqf (fun hc => h hc.symm), if_neg h,
          beqf (fun hc : p.1 = k => h (hc.symm.trans hp))]
        rfl
    · rw [show setField (p :: d) k₀ v₀ = p :: setField d k₀ v₀ by simp [setField, beqf hp]]
      by_cases hk : p.1 = k
      · have hne : k ≠ k₀ := fun hc => hp (hk.trans hc)
        simp [getField_cons, beqt hk, hne]
      · rw [getField_cons, getField_cons, beqf hk]
        simp only [Bool.false_eq_true, if_false]
        exact ih

/-- `lastVal` on a cons: the later writes win, the head is the fallback. -/
theorem lastVal_cons (k₀ : String) (v₀ : Value) (u : Doc) (k : String) :
    lastVal ((k₀, v₀) :: u) k = (lastVal u k).or (if k = k₀ then some v₀ else none) := by
  simp only [lastVal, List.reverse_cons, List.find?_append]
  by_cases h : k = k₀
  · cases hf : List.find? (fun p => p.1 == k) u.reverse <;>
      simp [hf, List.find?, beqt h.symm, h, Option.or]
  · cases hf : List.find? (fun p => p.1 == k) u.reverse <;>
      simp [hf, List.find?, beqf (fun hc => h hc.symm), h, Option.or]

/-- A document misses key `k` exactly when no entry carries it. -/
theorem getField_eq_none (d : Doc) (k : String) :
    getField d k = none ↔ ∀ p ∈ d, p.1 ≠ k := by
  induction d with
  | nil => simp [getField, List.find?]
  | cons p d ih =>
    rw [getField_cons]
    by_cases hp : p.1 = k
    · simp [beqt hp, hp]
    · simp [beqf hp, ih, hp]

/-- A key written by no entry of `u` has no effective `$set` value. -/
theorem lastVal_eq_none_iff (u : Doc) (k : String) :
    lastVal u k = none ↔ ∀ p ∈ u, p.1 ≠ k := by
  have : lastVal u k = getField u.reverse k := rfl
  rw [this, getField_eq_none]
  constructor
  · intro h p hp
    exact h p (List.mem_reverse.mpr hp)
  · intro h p hp
    exact h p (List.mem_reverse.mp hp)

/-- Field extensionality of `$set`: a field of the merged document is the
update's effective value when the update writes it, the old value
otherwise. -/
theorem getField_setFields (d u : Doc) (k : String) :
    getField (setFields d u) k = (lastVal u k).or (getField d k) := by
  induction u generalizing d with
  | nil => simp [setFields, lastVal, List.find?]
  | cons p u ih =>
    have hstep : setFields d (p :: u) = setFields (setField d p.1 p.2) u := rfl
    rw [hstep, ih, lastVal_cons, Option.or_assoc, getField_setField]
    by_cases h : k = p.1 <;> simp [h, Option.or]

/-- In a duplicate-key-free document — every Python dict — the effective
written value of a key is just its lookup. -/
theorem lastVal_eq_getField (d : Doc) (k : String) (h : (d.map Prod.fst).Nodup) :
    lastVal d k = getField d k := by
  induction d with
  | nil => simp [lastVal, getField, List.find?]
  | cons p d ih =>
    simp only [List.map_cons, List.nodup_cons] at h
    rw [lastVal_cons p.1 p.2 d k, getField_cons]
    by_cases hk : k = p.1
    · subst hk
      have hnone : lastVal d p.1 = none := by
        rw [lastVal_eq_none_iff]
        intro q hq hqk
        exact h.1 (hqk ▸ List.mem_map_of_mem Prod.fst hq)
      simp [hnone, Option.or]
    · rw [if_neg hk, beqf (fun hc => hk hc.symm), Option.or_none]
      exact ih h.2

/-- The key list after a dict assignment: unchanged when the key was
present, extended by the key otherwise. -/
theorem keys_setField (d : Doc) (k : String) (v : Value) :
    (setField d k v).map Prod.fst =
      if hasKey d k then d.map Prod.fst else d.map Prod.fst ++ [k] := by
  induction d with
  | nil => simp [setField, hasKey, getField, List.find?]
  | cons p d ih =>
    have hcons : hasKey (p :: d) k = ((p.1 == k) || hasKey d k) := by
      rw [hasKey, getField_cons]
      cases h : (p.1 == k) <;> simp [hasKey]
    by_cases hp : p.1 = k
    · rw [show setField (p :: d) k v = (k, v) :: d by simp [setField, beqt hp]]
      simp [hcons, beqt hp, hp]
    · rw [show setField (p :: d) k v = p :: setField d k v by simp [setField, beqf hp]]
      simp only [hcons, beqf hp, Bool.false_or, List.map_cons, ih]
      by_cases h3 : hasKey d k <;> simp [h3]

/-- Dict assignment preserves freedom from duplicate keys. -/
theorem nodup_keys_setField (d : Doc) (k : String) (v : Value)
    (h : (d.map Prod.fst).Nodup) : ((setField d k v).map Prod.fst).Nodup := by
  rw [keys_setField]
  by_cases h1 : hasKey d k
  · simpa [h1]
  · have h2 : k ∉ d.map Prod.fst := by
      intro hmem
      obtain ⟨p, hp, hpk⟩ := List.mem_map.mp hmem
      have h3 : getField d k = none := by
        simpa [hasKey, Option.isSome] using (by
          cases h4 : getField d k <;> simp [hasKey, h4] at h1 ⊢)
      exact (getField_eq_none d k).mp h3 p hp hpk
    simp only [h1, Bool.false_eq_true, if_false]
    simp [List.nodup_append, h2, h]

/-- Positional view of `List.set`. -/
theorem getD_set (c : List Doc) (i j : Nat) (x : Doc) :
    (c.set i x).getD j [] = if i = j ∧ i < c.length then x else c.getD j [] := by
  induction c generalizing i j with
  | nil => simp [List.set]
  | cons d c ih =>
    match i, j with
    | 0, 0 => simp [List.set]
    | 0, j + 1 => simp [List.set]
    | i + 1, 0 => simp [List.set]
    | i + 1, j + 1 =>
      simp only [List.set, List.getD_cons_succ, List.length_cons, ih]
      by_cases h : i = j ∧ i < c.length
      · rw [if_pos h, if_pos (by omega)]
      · rw [if_neg h, if_neg (by omega)]

/-- Positional view of appending one document. -/
theorem getD_append_one (c : List Doc) (y : Doc) (j : Nat) :
    (c ++ [y]).getD j [] =
      if j < c.length then c.getD j [] else if j = c.length then y else [] := by
  induction c generalizing j with
  | nil =>
    match j with
    | 0 => simp
    | j + 1 => simp [List.getD]
  | cons d c ih =>
    match j with
    | 0 => simp
    | j + 1 =>
      simp only [List.cons_append, List.getD_cons_succ, List.length_cons, ih]
      by_cases h : j < c.length
      · rw [if_pos h, if_pos (show j + 1 < c.length + 1 by omega)]
      · rw [if_neg h, if_neg (show ¬(j + 1 < c.length + 1) by omega)]
        by_cases h2 : j = c.length
        · rw [if_pos h2, if_pos (show j + 1 = c.length + 1 by omega)]
        · rw [if_neg h2, if_neg (show ¬(j + 1 = c.length + 1) by omega)]

/-- A position inside the list yields a member. -/
theorem getD_mem (c : List Doc) (j : Nat) (h : j < c.length) : c.getD j [] ∈ c := by
  rw [List.getD_eq_getElem c [] h]
  exact List.getElem_mem h

/-- Past the end, `getD` is the default. -/
theorem getD_eq_nil (c : List Doc) (j : Nat) (h : c.length ≤ j) : c.getD j [] = [] :=
  List.getD_eq_default c [] h

/-- What `firstMatch f c = some i` means: position `i` is in range, matches,
and every earlier position does not. -/
theorem firstMatch_eq_some (f : Doc) (c : List Doc) (i : Nat)
    (h : firstMatch f c = some i) :
    i < c.length ∧ matchesFilter f (c.getD i []) = true ∧
      ∀ j < i, matchesFilter f (c.getD j []) = false := by
  induction c generalizing i with
  | nil => simp [firstMatch] at h
  | cons d c ih =>
    simp only [firstMatch] at h
    by_cases hm : matchesFilter f d
    · rw [if_pos hm] at h
      cases h
      exact ⟨by simp, by simpa using hm, fun j hj => by omega⟩
    · rw [if_neg hm] at h
      cases hfm : firstMatch f c with
      | none => rw [hfm] at h; simp at h
      | some i' =>
        rw [hfm] at h
        simp only [Option.map_some'] at h
        cases h
        obtain ⟨h1, h2, h3⟩ := ih i' hfm
        refine ⟨by simp; omega, by simpa using h2, ?_⟩
        intro j hj
        match j with
        | 0 =>
          simpa using Bool.eq_false_iff.mpr hm
        | j + 1 =>
          simpa using h3 j (by omega)

/-- Converse construction of `firstMatch`. -/
theorem firstMatch_eq_some_of (f : Doc) (c : List Doc) (i : Nat)
    (h1 : i < c.length) (h2 : matchesFilter f (c.getD i []) = true)
    (h3 : ∀ j < i, matchesFilter f (c.getD j []) = false) :
    firstMatch f c = some i := by
  induction c generalizing i with
  | nil => simp at h1
  | cons d c ih =>
    match i with
    | 0 =>
      simp only [List.getD_cons_zero] at h2
      simp [firstMatch, h2]
    | i + 1 =>
      have hd : matchesFilter f d = false := by simpa using h3 0 (by omega)
      simp only [firstMatch, hd, Bool.false_eq_true, if_false]
      rw [ih i (by simpa using h1) (by simpa using h2)
        (fun j hj => by simpa using h3 (j + 1) (by omega))]
      rfl

/-- `firstMatch` fails exactly when no document matches. -/
theorem firstMatch_eq_none (f : Doc) (c : List Doc) :
    firstMatch f c = none ↔ ∀ d ∈ c, matchesFilter f d = false := by
  induction c with
  | nil => simp [firstMatch]
  | cons d c ih =>
    by_cases hm : matchesFilter f d
    · simp [firstMatch, hm]
    · simp only [firstMatch, Bool.eq_false_iff.mpr hm, Bool.false_eq_true, if_false,
        Option.map_eq_none', List.mem_cons]
      rw [ih]
      constructor
      · intro h e he
        rcases he with he | he
        · rw [he]; exact Bool.eq_false_iff.mpr hm
        · exact h e he
      · intro h e he
        exact h e (Or.inr he)

/-- Everything in the upserted collection is an old document, an old
document with the update merged in, or the freshly inserted document. -/
theorem mem_updateOneUpsert (c : List Doc) (f u d : Doc)
    (h : d ∈ updateOneUpsert c f u) :
    d ∈ c ∨ (∃ b ∈ c, d = setFields b u) ∨ d = setFields f u := by
  unfold updateOneUpsert at h
  cases hfm : firstMatch f c with
  | none =>
    rw [hfm] at h
    rcases List.mem_append.mp h with h | h
    · exact Or.inl h
    · right; right; simpa using h
  | some i =>
    rw [hfm] at h
    rcases List.mem_or_eq_of_mem_set h with h | h
    · exact Or.inl h
    · right; left
      exact ⟨c.getD i [], getD_mem c i (firstMatch_eq_some f c i hfm).1, h⟩

/-- Positional view of one upsert: each position is unchanged or carries
some merged update. -/
theorem getD_updateOneUpsert (c : List Doc) (f u : Doc) (j : Nat) :
    (updateOneUpsert c f u).getD j [] = c.getD j [] ∨
      ∃ b, (updateOneUpsert c f u).getD j [] = setFields b u := by
  unfold updateOneUpsert
  cases hfm : firstMatch f c with
  | none =>
    rw [getD_append_one]
    by_cases h1 : j < c.length
    · rw [if_pos h1]; exact Or.inl rfl
    · rw [if_neg h1]
      by_cases h2 : j = c.length
      · rw [if_pos h2]; exact Or.inr ⟨f, rfl⟩
      · rw [if_neg h2]
        exact Or.inl (getD_eq_nil c j (by omega)).symm
  | some i =>
    rw [getD_set]
    by_cases h1 : i = j ∧ i < c.length
    · rw [if_pos h1]; exact Or.inr ⟨c.getD i [], rfl⟩
    · rw [if_neg h1]; exact Or.inl rfl

/-- Invariant preservation through a store loop: if every document of the
initial collection satisfies `Q`, every merged write satisfies `Q`, and
every fresh insert satisfies `Q`, then every document of the final
collection satisfies `Q`. -/
theorem upsertLoop_inv (P : StoreParams) (Q : Doc → Prop) :
    ∀ (rs c c' : List Doc) (ids : List Value),
      upsertLoop P c rs = some (c', ids) →
      (∀ d ∈ c, Q d) →
      (∀ r ∈ rs, P.skip r = false → ∀ b, Q b → Q (setFields b (P.proc r))) →
      (∀ r ∈ rs, P.skip r = false → ∀ f, P.filt (P.proc r) = some f →
        Q (setFields f (P.proc r))) →
      ∀ d ∈ c', Q d := by
  intro rs
  induction rs with
  | nil =>
    intro c c' ids h hQc _ _
    simp only [upsertLoop] at h
    cases h
    exact hQc
  | cons r rest ih =>
    intro c c' ids h hQc hstep hins
    cases hs : P.skip r with
    | true =>
      simp only [upsertLoop, hs, if_true] at h
      exact ih c c' ids h hQc
        (fun r' hr' => hstep r' (List.mem_cons_of_mem r hr'))
        (fun r' hr' => hins r' (List.mem_cons_of_mem r hr'))
    | false =>
      simp only [upsertLoop, hs, Bool.false_eq_true, if_false] at h
      cases hf : P.filt (P.proc r) with
      | none => rw [hf] at h; exact absurd h (by simp)
      | some f =>
        rw [hf, Option.some_bind] at h
        cases hv : P.ret (P.proc r) with
        | none => rw [hv] at h; exact absurd h (by simp)
        | some v =>
          rw [hv, Option.some_bind] at h
          cases hl : upsertLoop P (updateOneUpsert c f (P.proc r)) rest with
          | none => rw [hl] at h; exact absurd h (by simp)
          | some cr =>
            rw [hl, Option.map_some'] at h
            simp only [Option.some.injEq, Prod.mk.injEq] at h
            obtain ⟨h3, h4⟩ := h
            subst h3
            subst h4
            refine ih (updateOneUpsert c f (P.proc r)) cr.1 cr.2 (by rw [hl]) ?_
              (fun r' hr' => hstep r' (List.mem_cons_of_mem r hr'))
              (fun r' hr' => hins r' (List.mem_cons_of_mem r hr'))
            intro d hd
            rcases mem_updateOneUpsert c f (P.proc r) d hd with hmem | ⟨b, hb, rfl⟩ | rfl
            · exact hQc d hmem
            · exact hstep r (List.mem_cons_self r rest) hs b (hQc b hb)
            · exact hins r (List.mem_cons_self r rest) hs f hf

/-- A skipped record leaves the loop state untouched. -/
theorem upsertLoop_cons_skip (P : StoreParams) (c : List Doc) (r : Doc) (rest : List Doc)
    (hs : P.skip r = true) : upsertLoop P c (r :: rest) = upsertLoop P c rest := by
  simp [upsertLoop, hs]

/-- Destructuring a successful loop step on a non-skipped record. -/
theorem upsertLoop_cons_succ (P : StoreParams) (c : List Doc) (r : Doc) (rest : List Doc)
    (c' : List Doc) (ids : List Value) (hs : P.skip r = false)
    (h : upsertLoop P c (r :: rest) = some (c', ids)) :
    ∃ f v ids', P.filt (P.proc r) = some f ∧ P.ret (P.proc r) = some v ∧
      upsertLoop P (updateOneUpsert c f (P.proc r)) rest = some (c', ids') ∧
      ids = v :: ids' := by
  simp only [upsertLoop, hs, Bool.false_eq_true, if_false] at h
  cases hf : P.filt (P.proc r) with
  | none => rw [hf] at h; exact absurd h (by simp)
  | some f =>
    rw [hf, Option.some_bind] at h
    cases hv : P.ret (P.proc r) with
    | none => rw [hv] at h; exact absurd h (by simp)
    | some v =>
      rw [hv, Option.some_bind] at h
      cases hl : upsertLoop P (updateOneUpsert c f (P.proc r)) rest with
      | none => rw [hl] at h; exact absurd h (by simp)
      | some cr =>
        rw [hl, Option.map_some'] at h
        simp only [Option.some.injEq, Prod.mk.injEq] at h
        exact ⟨f, v, cr.2, rfl, rfl, by rw [hl, ← h.1], h.2.symm⟩

/-- Positional invariant through a store loop: every position of the final
collection holds its original document or a document some write produced. -/
theorem upsertLoop_pos (P : StoreParams) (V : Doc → Prop) :
    ∀ (rs c c' : List Doc) (ids : List Value),
      upsertLoop P c rs = some (c', ids) →
      (∀ r ∈ rs, P.skip r = false → ∀ b, V (setFields b (P.proc r))) →
      ∀ j, c'.getD j [] = c.getD j [] ∨ V (c'.getD j []) := by
  intro rs
  induction rs with
  | nil =>
    intro c c' ids h _ j
    simp only [upsertLoop, Option.some.injEq, Prod.mk.injEq] at h
    rw [← h.1]
    exact Or.inl rfl
  | cons r rest ih =>
    intro c c' ids h hV j
    cases hs : P.skip r with
    | true =>
      rw [upsertLoop_cons_skip P c r rest hs] at h
      exact ih c c' ids h (fun r' hr' => hV r' (List.mem_cons_of_mem r hr')) j
    | false =>
      obtain ⟨f, v, ids', hf, hv, hl, rfl⟩ := upsertLoop_cons_succ P c r rest c' ids hs h
      rcases ih _ c' ids' hl (fun r' hr' => hV r' (List.mem_cons_of_mem r hr')) j with h1 | h1
      · rw [h1]
        rcases getD_updateOneUpsert c f (P.proc r) j with h2 | ⟨b, h2⟩
        · exact Or.inl h2
        · right
          rw [h2]
          exact hV r (List.mem_cons_self r rest) hs b
      · exact Or.inr h1

/-- Skipped records are invisible: the loop equals the loop over the
filtered record list. -/
theorem upsertLoop_filter_skip (P : StoreParams) :
    ∀ (rs c : List Doc),
      upsertLoop P c rs = upsertLoop P c (rs.filter (fun r => !P.skip r)) := by
  intro rs
  induction rs with
  | nil => intro c; rfl
  | cons r rest ih =>
    intro c
    cases hs : P.skip r with
    | true =>
      rw [upsertLoop_cons_skip P c r rest hs,
        show (r :: rest).filter (fun r => !P.skip r) = rest.filter (fun r => !P.skip r) by
          simp [List.filter, hs]]
      exact ih c
    | false =>
      rw [show (r :: rest).filter (fun r => !P.skip r) =
          r :: rest.filter (fun r => !P.skip r) by simp [List.filter, hs]]
      simp only [upsertLoop, hs, Bool.false_eq_true, if_false]
      congr 1
      funext f
      congr 1
      funext v
      rw [ih (updateOneUpsert c f (P.proc r))]

/-- The returned key list has one entry per non-skipped record, and every
returned key is some non-skipped record's key value. -/
theorem upsertLoop_ids_spec (P : StoreParams) :
    ∀ (rs c c' : List Doc) (ids : List Value),
      upsertLoop P c rs = some (c', ids) →
      ids.length = (rs.filter (fun r => !P.skip r)).length ∧
        ∀ v ∈ ids, ∃ r ∈ rs, P.skip r = false ∧ P.ret (P.proc r) = some v := by
  intro rs
  induction rs with
  | nil =>
    intro c c' ids h
    simp only [upsertLoop, Option.some.injEq, Prod.mk.injEq] at h
    rw [← h.2]
    exact ⟨by simp, by simp⟩
  | cons r rest ih =>
    intro c c' ids h
    cases hs : P.skip r with
    | true =>
      rw [upsertLoop_cons_skip P c r rest hs] at h
      obtain ⟨h1, h2⟩ := ih c c' ids h
      refine ⟨by rw [h1]; simp [List.filter, hs], ?_⟩
      intro v hv
      obtain ⟨r', hr', hsk, hret⟩ := h2 v hv
      exact ⟨r', List.mem_cons_of_mem r hr', hsk, hret⟩
    | false =>
      obtain ⟨f, v, ids', hf, hv, hl, rfl⟩ := upsertLoop_cons_succ P c r rest c' ids hs h
      obtain ⟨h1, h2⟩ := ih _ c' ids' hl
      refine ⟨by simp [List.filter, hs, h1], ?_⟩
      intro w hw
      rcases List.mem_cons.mp hw with rfl | hw
      · exact ⟨r, List.mem_cons_self r rest, hs, hv⟩
      · obtain ⟨r', hr', hsk, hret⟩ := h2 w hw
        exact ⟨r', List.mem_cons_of_mem r hr', hsk, hret⟩

/-- The returned key list depends only on the records (through the skip and
key functions), not on the collection or the timestamp: two runs over the
same records that agree on skipping and key extraction return equal keys. -/
theorem upsertLoop_ids_congr (P₁ P₂ : StoreParams) :
    ∀ (rs c₁ c₂ c₁' c₂' : List Doc) (ids₁ ids₂ : List Value),
      (∀ r ∈ rs, P₂.skip r = P₁.skip r) →
      (∀ r ∈ rs, P₂.ret (P₂.proc r) = P₁.ret (P₁.proc r)) →
      upsertLoop P₁ c₁ rs = some (c₁', ids₁) →
      upsertLoop P₂ c₂ rs = some (c₂', ids₂) →
      ids₂ = ids₁ := by
  intro rs
  induction rs with
  | nil =>
    intro c₁ c₂ c₁' c₂' ids₁ ids₂ _ _ h1 h2
    simp only [upsertLoop, Option.some.injEq, Prod.mk.injEq] at h1 h2
    rw [← h1.2, ← h2.2]
  | cons r rest ih =>
    intro c₁ c₂ c₁' c₂' ids₁ ids₂ hskip hret h1 h2
    cases hs : P₁.skip r with
    | true =>
      rw [upsertLoop_cons_skip P₁ c₁ r rest hs] at h1
      rw [upsertLoop_cons_skip P₂ c₂ r rest
        ((hskip r (List.mem_cons_self r rest)).trans hs)] at h2
      exact ih c₁ c₂ c₁' c₂' ids₁ ids₂
        (fun r' hr' => hskip r' (List.mem_cons_of_mem r hr'))
        (fun r' hr' => hret r' (List.mem_cons_of_mem r hr')) h1 h2
    | false =>
      obtain ⟨f₁, v₁, ids₁', hf₁, hv₁, hl₁, rfl⟩ :=
        upsertLoop_cons_succ P₁ c₁ r rest c₁' ids₁ hs h1
      obtain ⟨f₂, v₂, ids₂', hf₂, hv₂, hl₂, rfl⟩ :=
        upsertLoop_cons_succ P₂ c₂ r rest c₂' ids₂
          ((hskip r (List.mem_cons_self r rest)).trans hs) h2
      have hvv : v₂ = v₁ := by
        have hr := hret r (List.mem_cons_self r rest)
        rw [hv₂, hv₁] at hr
        exact Option.some.inj hr
      rw [hvv, ih _ _ _ _ _ _
        (fun r' hr' => hskip r' (List.mem_cons_of_mem r hr'))
        (fun r' hr' => hret r' (List.mem_cons_of_mem r hr')) hl₁ hl₂]

/-- A field the update writes (in a duplicate-key-free update) survives the
`$set` with its written value, whatever the base document. -/
theorem getField_setFields_of_write (b u : Doc) (k : String) (v : Value)
    (hnodup : (u.map Prod.fst).Nodup) (hu : getField u k = some v) :
    getField (setFields b u) k = some v := by
  rw [getField_setFields, lastVal_eq_getField u k hnodup, hu]
  rfl

/-- A batch with no key missing: a key is absent from a dict exactly when it
is not among its keys. -/
theorem hasKey_eq_false_iff (d : Doc) (k : String) :
    hasKey d k = false ↔ k ∉ d.map Prod.fst := by
  rw [hasKey, show ((getField d k).isSome = false) = (getField d k = none) by
    cases getField d k <;> simp, getField_eq_none]
  constructor
  · intro h hmem
    obtain ⟨p, hp, hpk⟩ := List.mem_map.mp hmem
    exact h p hp hpk
  · intro h p hp hpk
    exact h (hpk ▸ List.mem_map_of_mem Prod.fst hp)

/-- Keys after an assignment are among the old keys plus the assigned key. -/
theorem keys_setField_subset (d : Doc) (k : String) (v : Value) (k' : String)
    (h : k' ∈ (setField d k v).map Prod.fst) : k' ∈ d.map Prod.fst ∨ k' = k := by
  rw [keys_setField] at h
  by_cases h1 : hasKey d k
  · rw [if_pos h1] at h
    exact Or.inl h
  · rw [if_neg h1] at h
    rcases List.mem_append.mp h with h | h
    · exact Or.inl h
    · right
      simpa using h

/-- `_add_timestamp` writes the clock value into `collected_at`. -/
theorem getField_add_timestamp_self (now : Nat) (r : Doc) :
    getField (add_timestamp now r) "collected_at" = some (Value.vTime now) := by
  rw [add_timestamp, getField_setField, if_pos rfl]

/-- `_add_timestamp` leaves every other field alone. -/
theorem getField_add_timestamp_ne (now : Nat) (r : Doc) (k : String)
    (h : k ≠ "collected_at") : getField (add_timestamp now r) k = getField r k := by
  rw [add_timestamp, getField_setField, if_neg h]

/-- Timestamp plus `repository_id` injection — the document built by the
child stores — carries the clock in `collected_at` and the parent key in
`repository_id` after any `$set`, for a duplicate-key-free record. -/
theorem write_fields_inject (now : Nat) (rid : Int) (r b : Doc)
    (h : (r.map Prod.fst).Nodup) :
    getField (setFields b (setField (add_timestamp now r) "repository_id" (Value.vInt rid)))
        "collected_at" = some (Value.vTime now) ∧
    getField (setFields b (setField (add_timestamp now r) "repository_id" (Value.vInt rid)))
        "repository_id" = some (Value.vInt rid) := by
  have hn : ((setField (add_timestamp now r) "repository_id" (Value.vInt rid)).map Prod.fst).Nodup :=
    nodup_keys_setField _ _ _ (nodup_keys_setField _ _ _ h)
  constructor
  · apply getField_setFields_of_write _ _ _ _ hn
    rw [getField_setField, if_neg (by decide), getField_add_timestamp_self]
  · apply getField_setFields_of_write _ _ _ _ hn
    rw [getField_setField, if_pos rfl]

/-- The repository store's written document keeps the clock stamp after any
`$set`, for a duplicate-key-free record. -/
theorem write_stamp_addts (now : Nat) (r b : Doc) (h : (r.map Prod.fst).Nodup) :
    getField (setFields b (add_timestamp now r)) "collected_at" = some (Value.vTime now) := by
  apply getField_setFields_of_write _ _ _ _ (nodup_keys_setField _ _ _ h)
  exact getField_add_timestamp_self now r

/-- The document built by `store_comments` always carries the clock in
`collected_at` and the parent key in `repository_id`. -/
theorem getField_comment_proc (now : Nat) (rid : Int) (iid pid : Option Int) (r : Doc) :
    getField ((commentParams now rid iid pid).proc r) "collected_at" = some (Value.vTime now) ∧
    getField ((commentParams now rid iid pid).proc r) "repository_id" = some (Value.vInt rid) := by
  have hbase1 : getField (setField (add_timestamp now r) "repository_id" (Value.vInt rid))
      "collected_at" = some (Value.vTime now) := by
    rw [getField_setField, if_neg (by decide), getField_add_timestamp_self]
  have hbase2 : getField (setField (add_timestamp now r) "repository_id" (Value.vInt rid))
      "repository_id" = some (Value.vInt rid) := by
    rw [getField_setField, if_pos rfl]
  cases hti : truthyInt iid with
  | false =>
    cases htp : truthyInt pid with
    | false =>
      refine ⟨?_, ?_⟩ <;>
        simp only [commentParams, hti, htp, Bool.false_eq_true, if_false]
      · exact hbase1
      · exact hbase2
    | true =>
      refine ⟨?_, ?_⟩ <;>
        simp only [commentParams, hti, htp, Bool.false_eq_true, if_false, if_true]
      · rw [getField_setField, if_neg (by decide)]
        exact hbase1
      · rw [getField_setField, if_neg (by decide)]
        exact hbase2
  | true =>
    cases htp : truthyInt pid with
    | false =>
      refine ⟨?_, ?_⟩ <;>
        simp only [commentParams, hti, htp, Bool.false_eq_true, if_false, if_true]
      · rw [getField_setField, if_neg (by decide)]
        exact hbase1
      · rw [getField_setField, if_neg (by decide)]
        exact hbase2
    | true =>
      refine ⟨?_, ?_⟩ <;>
        simp only [commentParams, hti, htp, if_true]
      · rw [getField_setField, if_neg (by decide), getField_setField, if_neg (by decide)]
        exact hbase1
      · rw [getField_setField, if_neg (by decide), getField_setField, if_neg (by decide)]
        exact hbase2

/-- The `store_comments` written document has duplicate-free keys when the
record does. -/
theorem nodup_keys_comment_proc (now : Nat) (rid : Int) (iid pid : Option Int) (r : Doc)
    (h : (r.map Prod.fst).Nodup) :
    (((commentParams now rid iid pid).proc r).map Prod.fst).Nodup := by
  have h1 : ((setField (add_timestamp now r) "repository_id" (Value.vInt rid)).map Prod.fst).Nodup :=
    nodup_keys_setField _ _ _ (nodup_keys_setField _ _ _ h)
  cases hti : truthyInt iid with
  | false =>
    cases htp : truthyInt pid with
    | false =>
      simpa only [commentParams, hti, htp, Bool.false_eq_true, if_false] using h1
    | true =>
      simp only [commentParams, hti, htp, Bool.false_eq_true, if_false, if_true]
      exact nodup_keys_setField _ _ _ h1
  | true =>
    cases htp : truthyInt pid with
    | false =>
      simp only [commentParams, hti, htp, Bool.false_eq_true, if_false, if_true]
      exact nodup_keys_setField _ _ _ h1
    | true =>
      simp only [commentParams, hti, htp, if_true]
      exact nodup_keys_setField _ _ _ (nodup_keys_setField _ _ _ h1)

/-- Comment-store writes: `collected_at` and `repository_id` after any
`$set`, for a duplicate-key-free record. -/
theorem write_fields_comment (now : Nat) (rid : Int) (iid pid : Option Int) (r b : Doc)
    (h : (r.map Prod.fst).Nodup) :
    getField (setFields b ((commentParams now rid iid pid).proc r)) "collected_at"
        = some (Value.vTime now) ∧
    getField (setFields b ((commentParams now rid iid pid).proc r)) "repository_id"
        = some (Value.vInt rid) := by
  obtain ⟨h1, h2⟩ := getField_comment_proc now rid iid pid r
  have hn := nodup_keys_comment_proc now rid iid pid r h
  exact ⟨getField_setFields_of_write _ _ _ _ hn h1, getField_setFields_of_write _ _ _ _ hn h2⟩

/-- Timestamps written by a loop never exceed a clock bound that dominates
the write clock and the initial collection's stamps. -/
theorem upsertLoop_stamp_bound (P : StoreParams) (now bound : Nat)
    (rs c c' : List Doc) (ids : List Value)
    (h : upsertLoop P c rs = some (c', ids)) (hb : now ≤ bound)
    (hW : ∀ r ∈ rs, P.skip r = false → ∀ b,
      getField (setFields b (P.proc r)) "collected_at" = some (Value.vTime now))
    (hc : ∀ d ∈ c, ∀ t, getField d "collected_at" = some (Value.vTime t) → t ≤ bound) :
    ∀ d ∈ c', ∀ t, getField d "collected_at" = some (Value.vTime t) → t ≤ bound := by
  refine upsertLoop_inv P
    (fun d => ∀ t, getField d "collected_at" = some (Value.vTime t) → t ≤ bound)
    rs c c' ids h hc ?_ ?_
  · intro r hr hs b _ t ht
    rw [hW r hr hs b] at ht
    cases Value.vTime.inj (Option.some.inj ht)
    exact hb
  · intro r hr hs f _ t ht
    rw [hW r hr hs f] at ht
    cases Value.vTime.inj (Option.some.inj ht)
    exact hb

/-- Across two successive store passes with non-decreasing clocks, the stamp
at every position never decreases. -/
theorem upsertLoop_resync_mono (P₁ P₂ : StoreParams) (t₁ t₂ : Nat)
    (rs rs' c c₁ c₂ : List Doc) (ids₁ ids₂ : List Value)
    (hle : t₁ ≤ t₂)
    (hW₁ : ∀ r ∈ rs, P₁.skip r = false → ∀ b,
      getField (setFields b (P₁.proc r)) "collected_at" = some (Value.vTime t₁))
    (hW₂ : ∀ r ∈ rs', P₂.skip r = false → ∀ b,
      getField (setFields b (P₂.proc r)) "collected_at" = some (Value.vTime t₂))
    (hc : ∀ d ∈ c, ∀ t, getField d "collected_at" = some (Value.vTime t) → t ≤ t₁)
    (h₁ : upsertLoop P₁ c rs = some (c₁, ids₁))
    (h₂ : upsertLoop P₂ c₁ rs' = some (c₂, ids₂)) :
    ∀ j s₁ s₂, getField (c₁.getD j []) "collected_at" = some (Value.vTime s₁) →
      getField (c₂.getD j []) "collected_at" = some (Value.vTime s₂) → s₁ ≤ s₂ := by
  intro j s₁ s₂ hs₁ hs₂
  rcases upsertLoop_pos P₂ (fun d => getField d "collected_at" = some (Value.vTime t₂))
      rs' c₁ c₂ ids₂ h₂ (fun r hr hsk b => hW₂ r hr hsk b) j with he | hst
  · rw [he, hs₁] at hs₂
    cases Value.vTime.inj (Option.some.inj hs₂)
    exact le_rfl
  · rw [hst] at hs₂
    cases Value.vTime.inj (Option.some.inj hs₂)
    have hb1 := upsertLoop_stamp_bound P₁ t₁ t₁ rs c c₁ ids₁ h₁ le_rfl hW₁ hc
    by_cases hj : j < c₁.length
    · exact le_trans (hb1 (c₁.getD j []) (getD_mem c₁ j hj) s₁ hs₁) hle
    · rw [getD_eq_nil c₁ j (by omega)] at hs₁
      simp [getField, List.find?] at hs₁

/-- Claim C8: every document written by a store operation carries a
`collected_at` stamp equal to the write-time clock — regardless of any
`collected_at` the source payload carried — and across two successive
re-syncs with a non-decreasing clock, the stamp at every collection
position is non-decreasing.  Records are Python dicts, hence
duplicate-key-free (`WFRecords`). -/
theorem c8_collected_at_stamping :
    (∀ now c rs c' ids, WFRecords rs → store_repositories now c rs = some (c', ids) →
      ∀ d ∈ c', d ∈ c ∨ getField d "collected_at" = some (Value.vTime now)) ∧
    (∀ now rid c rs c' ids, WFRecords rs → store_commits now rid c rs = some (c', ids) →
      ∀ d ∈ c', d ∈ c ∨ getField d "collected_at" = some (Value.vTime now)) ∧
    (∀ now rid c rs c' ids, WFRecords rs → store_contributors now rid c rs = some (c', ids) →
      ∀ d ∈ c', d ∈ c ∨ getField d "collected_at" = some (Value.vTime now)) ∧
    (∀ now rid c rs c' ids, WFRecords rs → store_pull_requests now rid c rs = some (c', ids) →
      ∀ d ∈ c', d ∈ c ∨ getField d "collected_at" = some (Value.vTime now)) ∧
    (∀ now rid c rs c' ids, WFRecords rs → store_issues now rid c rs = some (c', ids) →
      ∀ d ∈ c', d ∈ c ∨ getField d "collected_at" = some (Value.vTime now)) ∧
    (∀ now rid iid pid c rs c' ids, WFRecords rs →
      store_comments now rid iid pid c rs = some (c', ids) →
      ∀ d ∈ c', d ∈ c ∨ getField d "collected_at" = some (Value.vTime now)) ∧
    (∀ t₁ t₂ c rs rs' c₁ ids₁ c₂ ids₂, WFRecords rs → WFRecords rs' → t₁ ≤ t₂ →
      (∀ d ∈ c, ∀ t, getField d "collected_at" = some (Value.vTime t) → t ≤ t₁) →
      store_repositories t₁ c rs = some (c₁, ids₁) →
      store_repositories t₂ c₁ rs' = some (c₂, ids₂) →
      ∀ j s₁ s₂, getField (c₁.getD j []) "collected_at" = some (Value.vTime s₁) →
        getField (c₂.getD j []) "collected_at" = some (Value.vTime s₂) → s₁ ≤ s₂) ∧
    (∀ t₁ t₂ rid c rs rs' c₁ ids₁ c₂ ids₂, WFRecords rs → WFRecords rs' → t₁ ≤ t₂ →
      (∀ d ∈ c, ∀ t, getField d "collected_at" = some (Value.vTime t) → t ≤ t₁) →
      store_commits t₁ rid c rs = some (c₁, ids₁) →
      store_commits t₂ rid c₁ rs' = some (c₂, ids₂) →
      ∀ j s₁ s₂, getField (c₁.getD j []) "collected_at" = some (Value.vTime s₁) →
        getField (c₂.getD j []) "collected_at" = some (Value.vTime s₂) → s₁ ≤ s₂) ∧
    (∀ t₁ t₂ rid iid pid c rs rs' c₁ ids₁ c₂ ids₂, WFRecords rs → WFRecords rs' → t₁ ≤ t₂ →
      (∀ d ∈ c, ∀ t, getField d "collected_at" = some (Value.vTime t) → t ≤ t₁) →
      store_comments t₁ rid iid pid c rs = some (c₁, ids₁) →
      store_comments t₂ rid iid pid c₁ rs' = some (c₂, ids₂) →
      ∀ j s₁ s₂, getField (c₁.getD j []) "collected_at" = some (Value.vTime s₁) →
        getField (c₂.getD j []) "collected_at" = some (Value.vTime s₂) → s₁ ≤ s₂) := by
  refine ⟨?_, ?_, ?_, ?_, ?_, ?_, ?_, ?_, ?_⟩
  · intro now c rs c' ids hwf h
    refine upsertLoop_inv (repoParams now) (fun d => d ∈ c ∨ getField d "collected_at" = some (Value.vTime now))
      rs c c' ids h (fun d hd => Or.inl hd) ?_ ?_
    · intro r hr hs b _
      exact Or.inr (write_stamp_addts now r b (hwf r hr))
    · intro r hr hs f _
      exact Or.inr (write_stamp_addts now r f (hwf r hr))
  · intro now rid c rs c' ids hwf h
    refine upsertLoop_inv (commitParams now rid)
      (fun d => d ∈ c ∨ getField d "collected_at" = some (Value.vTime now))
      rs c c' ids h (fun d hd => Or.inl hd) ?_ ?_
    · intro r hr hs b _
      exact Or.inr (write_fields_inject now rid r b (hwf r hr)).1
    · intro r hr hs f _
      exact Or.inr (write_fields_inject now rid r f (hwf r hr)).1
  · intro now rid c rs c' ids hwf h
    refine upsertLoop_inv (contributorParams now rid)
      (fun d => d ∈ c ∨ getField d "collected_at" = some (Value.vTime now))
      rs c c' ids h (fun d hd => Or.inl hd) ?_ ?_
    · intro r hr hs b _
      exact Or.inr (write_fields_inject now rid r b (hwf r hr)).1
    · intro r hr hs f _
      exact Or.inr (write_fields_inject now rid r f (hwf r hr)).1
  · intro now rid c rs c' ids hwf h
    refine upsertLoop_inv (prParams now rid)
      (fun d => d ∈ c ∨ getField d "collected_at" = some (Value.vTime now))
      rs c c' ids h (fun d hd => Or.inl hd) ?_ ?_
    · intro r hr hs b _
      exact Or.inr (write_fields_inject now rid r b (hwf r hr)).1
    · intro r hr hs f _
      exact Or.inr (write_fields_inject now rid r f (hwf r hr)).1
  · intro now rid c rs c' ids hwf h
    refine upsertLoop_inv (issueParams now rid)
      (fun d => d ∈ c ∨ getField d "collected_at" = some (Value.vTime now))
      rs c c' ids h (fun d hd => Or.inl hd) ?_ ?_
    · intro r hr hs b _
      exact Or.inr (write_fields_inject now rid r b (hwf r hr)).1
    · intro r hr hs f _
      exact Or.inr (write_fields_inject now rid r f (hwf r hr)).1
  · intro now rid iid pid c rs c' ids hwf h
    refine upsertLoop_inv (commentParams now rid iid pid)
      (fun d => d ∈ c ∨ getField d "collected_at" = some (Value.vTime now))
      rs c c' ids h (fun d hd => Or.inl hd) ?_ ?_
    · intro r hr hs b _
      exact Or.inr (write_fields_comment now rid iid pid r b (hwf r hr)).1
    · intro r hr hs f _
      exact Or.inr (write_fields_comment now rid iid pid r f (hwf r hr)).1
  · intro t₁ t₂ c rs rs' c₁ ids₁ c₂ ids₂ hwf hwf' hle hc h₁ h₂
    exact upsertLoop_resync_mono (repoParams t₁) (repoParams t₂) t₁ t₂ rs rs' c c₁ c₂ ids₁ ids₂
      hle (fun r hr hs b => write_stamp_addts t₁ r b (hwf r hr))
      (fun r hr hs b => write_stamp_addts t₂ r b (hwf' r hr)) hc h₁ h₂
  · intro t₁ t₂ rid c rs rs' c₁ ids₁ c₂ ids₂ hwf hwf' hle hc h₁ h₂
    exact upsertLoop_resync_mono (commitParams t₁ rid) (commitParams t₂ rid) t₁ t₂
      rs rs' c c₁ c₂ ids₁ ids₂ hle
      (fun r hr hs b => (write_fields_inject t₁ rid r b (hwf r hr)).1)
      (fun r hr hs b => (write_fields_inject t₂ rid r b (hwf' r hr)).1) hc h₁ h₂
  · intro t₁ t₂ rid iid pid c rs rs' c₁ ids₁ c₂ ids₂ hwf hwf' hle hc h₁ h₂
    exact upsertLoop_resync_mono (commentParams t₁ rid iid pid) (commentParams t₂ rid iid pid)
      t₁ t₂ rs rs' c c₁ c₂ ids₁ ids₂ hle
      (fun r hr hs b => (write_fields_comment t₁ rid iid pid r b (hwf r hr)).1)
      (fun r hr hs b => (write_fields_comment t₂ rid iid pid r b (hwf' r hr)).1) hc h₁ h₂

/-- Witness for C8: storing a repository payload that even carries its own
fake `collected_at` stamps the write clock 5, not the payload value. -/
theorem c8_witness :
    ([("id", Value.vInt 1), ("collected_at", Value.vTime 5)] : Doc) ∈ ([] : List Doc) ∨
      getField [("id", Value.vInt 1), ("collected_at", Value.vTime 5)] "collected_at"
        = some (Value.vTime 5) :=
  c8_collected_at_stamping.1 5 [] [[("id", Value.vInt 1), ("collected_at", Value.vNull)]]
    [[("id", Value.vInt 1), ("collected_at", Value.vTime 5)]] [Value.vStr "1"]
    (by intro r hr; simp at hr; rw [hr]; decide)
    (by decide)
    [("id", Value.vInt 1), ("collected_at", Value.vTime 5)] (by decide)

/-- An absent key stays absent under `$set` when the update never writes it. -/
theorem getField_setFields_none (b u : Doc) (k : String)
    (hb : getField b k = none) (hu : ∀ p ∈ u, p.1 ≠ k) :
    getField (setFields b u) k = none := by
  rw [getField_setFields, (lastVal_eq_none_iff u k).mpr hu, hb]
  rfl

/-- An absent key, `hasKey` form. -/
theorem hasKey_false_getField (d : Doc) (k : String) (h : hasKey d k = false) :
    getField d k = none := by
  rw [hasKey] at h
  cases hg : getField d k
  · rfl
  · rw [hg] at h
    simp at h

/-- The getField form back to `hasKey`. -/
theorem getField_none_hasKey (d : Doc) (k : String) (h : getField d k = none) :
    hasKey d k = false := by
  rw [hasKey, h]
  rfl

/-- `store_comments` called for an issue (truthy issue number, no PR
number) builds exactly: timestamp, `repository_id`, `issue_id`. -/
theorem comment_proc_issue_call (now : Nat) (rid : Int) (n : Int) (hn : n ≠ 0) (r : Doc) :
    (commentParams now rid (some n) none).proc r =
      setField (setField (add_timestamp now r) "repository_id" (Value.vInt rid))
        "issue_id" (Value.vInt n) := by
  have ht : truthyInt (some n) = true := by simp [truthyInt, hn]
  have ht2 : truthyInt none = false := rfl
  simp [commentParams, ht, ht2]

/-- `store_comments` called for a pull request (no issue number, truthy PR
number) builds exactly: timestamp, `repository_id`, `pull_request_id`. -/
theorem comment_proc_pr_call (now : Nat) (rid : Int) (m : Int) (hm : m ≠ 0) (r : Doc) :
    (commentParams now rid none (some m)).proc r =
      setField (setField (add_timestamp now r) "repository_id" (Value.vInt rid))
        "pull_request_id" (Value.vInt m) := by
  have ht : truthyInt (some m) = true := by simp [truthyInt, hm]
  have ht2 : truthyInt none = false := rfl
  simp [commentParams, ht, ht2]

/-- Keys of the issue/PR comment write: the record's keys plus the three
injected ones. -/
theorem keys_comment_write (now : Nat) (rid : Int) (kinj : String) (w : Value) (r : Doc)
    (p : String × Value)
    (hp : p ∈ setField (setField (add_timestamp now r) "repository_id" (Value.vInt rid)) kinj w) :
    p.1 ∈ r.map Prod.fst ∨ p.1 = "collected_at" ∨ p.1 = "repository_id" ∨ p.1 = kinj := by
  have h1 := List.mem_map_of_mem Prod.fst hp
  rcases keys_setField_subset _ _ _ _ h1 with h2 | h2
  · rcases keys_setField_subset _ _ _ _ h2 with h3 | h3
    · rcases keys_setField_subset r "collected_at" (Value.vTime now) _ h3 with h4 | h4
      · exact Or.inl h4
      · exact Or.inr (Or.inl h4)
    · exact Or.inr (Or.inr (Or.inl h3))
  · exact Or.inr (Or.inr (Or.inr h2))

/-- Claim C6: every document written by a child store carries the parent's
`repository_id`; a comment written through the orchestrator's issue call
(`issue_id=number`, no PR argument, nonzero number — GitHub numbers start
at 1, and Python's `if issue_id:` is false at 0) carries `issue_id` equal
to the number passed and no `pull_request_id`, and symmetrically for the PR
call — so each stored comment carries exactly one of the two keys. -/
theorem c6_foreign_key_threading :
    (∀ now rid c rs c' ids, WFRecords rs → store_commits now rid c rs = some (c', ids) →
      ∀ d ∈ c', d ∈ c ∨ getField d "repository_id" = some (Value.vInt rid)) ∧
    (∀ now rid c rs c' ids, WFRecords rs → store_contributors now rid c rs = some (c', ids) →
      ∀ d ∈ c', d ∈ c ∨ getField d "repository_id" = some (Value.vInt rid)) ∧
    (∀ now rid c rs c' ids, WFRecords rs → store_pull_requests now rid c rs = some (c', ids) →
      ∀ d ∈ c', d ∈ c ∨ getField d "repository_id" = some (Value.vInt rid)) ∧
    (∀ now rid c rs c' ids, WFRecords rs → store_issues now rid c rs = some (c', ids) →
      ∀ d ∈ c', d ∈ c ∨ getField d "repository_id" = some (Value.vInt rid)) ∧
    (∀ now rid iid pid c rs c' ids, WFRecords rs →
      store_comments now rid iid pid c rs = some (c', ids) →
      ∀ d ∈ c', d ∈ c ∨ getField d "repository_id" = some (Value.vInt rid)) ∧
    (∀ now rid n c rs c' ids, n ≠ 0 → WFRecords rs →
      (∀ d ∈ c, hasKey d "pull_request_id" = false) →
      (∀ r ∈ rs, hasKey r "pull_request_id" = false) →
      store_comments now rid (some n) none c rs = some (c', ids) →
      ∀ d ∈ c', hasKey d "pull_request_id" = false ∧
        (d ∈ c ∨ getField d "issue_id" = some (Value.vInt n))) ∧
    (∀ now rid m c rs c' ids, m ≠ 0 → WFRecords rs →
      (∀ d ∈ c, hasKey d "issue_id" = false) →
      (∀ r ∈ rs, hasKey r "issue_id" = false) →
      store_comments now rid none (some m) c rs = some (c', ids) →
      ∀ d ∈ c', hasKey d "issue_id" = false ∧
        (d ∈ c ∨ getField d "pull_request_id" = some (Value.vInt m))) := by
  refine ⟨?_, ?_, ?_, ?_, ?_, ?_, ?_⟩
  · intro now rid c rs c' ids hwf h
    refine upsertLoop_inv (commitParams now rid)
      (fun d => d ∈ c ∨ getField d "repository_id" = some (Value.vInt rid))
      rs c c' ids h (fun d hd => Or.inl hd) ?_ ?_
    · intro r hr hs b _
      exact Or.inr (write_fields_inject now rid r b (hwf r hr)).2
    · intro r hr hs f _
      exact Or.inr (write_fields_inject now rid r f (hwf r hr)).2
  · intro now rid c rs c' ids hwf h
    refine upsertLoop_inv (contributorParams now rid)
      (fun d => d ∈ c ∨ getField d "repository_id" = some (Value.vInt rid))
      rs c c' ids h (fun d hd => Or.inl hd) ?_ ?_
    · intro r hr hs b _
      exact Or.inr (write_fields_inject now rid r b (hwf r hr)).2
    · intro r hr hs f _
      exact Or.inr (write_fields_inject now rid r f (hwf r hr)).2
  · intro now rid c rs c' ids hwf h
    refine upsertLoop_inv (prParams now rid)
      (fun d => d ∈ c ∨ getField d "repository_id" = some (Value.vInt rid))
      rs c c' ids h (fun d hd => Or.inl hd) ?_ ?_
    · intro r hr hs b _
      exact Or.inr (write_fields_inject now rid r b (hwf r hr)).2
    · intro r hr hs f _
      exact Or.inr (write_fields_inject now rid r f (hwf r hr)).2
  · intro now rid c rs c' ids hwf h
    refine upsertLoop_inv (issueParams now rid)
      (fun d => d ∈ c ∨ getField d "repository_id" = some (Value.vInt rid))
      rs c c' ids h (fun d hd => Or.inl hd) ?_ ?_
    · intro r hr hs b _
      exact Or.inr (write_fields_inject now rid r b (hwf r hr)).2
    · intro r hr hs f _
      exact Or.inr (write_fields_inject now rid r f (hwf r hr)).2
  · intro now rid iid pid c rs c' ids hwf h
    refine upsertLoop_inv (commentParams now rid iid pid)
      (fun d => d ∈ c ∨ getField d "repository_id" = some (Value.vInt rid))
      rs c c' ids h (fun d hd => Or.inl hd) ?_ ?_
    · intro r hr hs b _
      exact Or.inr (write_fields_comment now rid iid pid r b (hwf r hr)).2
    · intro r hr hs f _
      exact Or.inr (write_fields_comment now rid iid pid r f (hwf r hr)).2
  · intro now rid n c rs c' ids hn hwf hcKeys hrsKeys h
    refine upsertLoop_inv (commentParams now rid (some n) none)
      (fun d => hasKey d "pull_request_id" = false ∧
        (d ∈ c ∨ getField d "issue_id" = some (Value.vInt n)))
      rs c c' ids h (fun d hd => ⟨hcKeys d hd, Or.inl hd⟩) ?_ ?_
    · intro r hr hs b hb
      rw [comment_proc_issue_call now rid n hn r]
      have hkeys : ∀ p ∈ setField (setField (add_timestamp now r) "repository_id"
          (Value.vInt rid)) "issue_id" (Value.vInt n), p.1 ≠ "pull_request_id" := by
        intro p hp hpk
        rcases keys_comment_write now rid "issue_id" (Value.vInt n) r p hp with hk | hk | hk | hk
        · exact (hasKey_eq_false_iff r "pull_request_id").mp (hrsKeys r hr) (hpk ▸ hk)
        all_goals rw [hpk] at hk
        all_goals exact absurd hk (by decide)
      refine ⟨getField_none_hasKey _ _ (getField_setFields_none b _ _
        (hasKey_false_getField b _ hb.1) hkeys), Or.inr ?_⟩
      have hnodup : ((setField (setField (add_timestamp now r) "repository_id"
          (Value.vInt rid)) "issue_id" (Value.vInt n)).map Prod.fst).Nodup :=
        nodup_keys_setField _ _ _ (nodup_keys_setField _ _ _ (nodup_keys_setField _ _ _ (hwf r hr)))
      apply getField_setFields_of_write _ _ _ _ hnodup
      rw [getField_setField, if_pos rfl]
    · intro r hr hs f hf
      have hfval : ∃ v, f = [("id", v)] := by
        simp only [commentParams, Option.map_eq_some'] at hf
        obtain ⟨v, hv1, hv2⟩ := hf
        exact ⟨v, hv2.symm⟩
      obtain ⟨v, rfl⟩ := hfval
      rw [comment_proc_issue_call now rid n hn r]
      have hkeys : ∀ p ∈ setField (setField (add_timestamp now r) "repository_id"
          (Value.vInt rid)) "issue_id" (Value.vInt n), p.1 ≠ "pull_request_id" := by
        intro p hp hpk
        rcases keys_comment_write now rid "issue_id" (Value.vInt n) r p hp with hk | hk | hk | hk
        · exact (hasKey_eq_false_iff r "pull_request_id").mp (hrsKeys r hr) (hpk ▸ hk)
        all_goals rw [hpk] at hk
        all_goals exact absurd hk (by decide)
      have hfnone : getField [("id", v)] "pull_request_id" = none := by
        have hb : (("id", v).1 == "pull_request_id") = false := by
          show (("id" : String) == "pull_request_id") = false
          decide
        rw [getField_cons, hb]
        rfl
      refine ⟨getField_none_hasKey _ _ (getField_setFields_none _ _ _ hfnone hkeys), Or.inr ?_⟩
      have hnodup : ((setField (setField (add_timestamp now r) "repository_id"
          (Value.vInt rid)) "issue_id" (Value.vInt n)).map Prod.fst).Nodup :=
        nodup_keys_setField _ _ _ (nodup_keys_setField _ _ _ (nodup_keys_setField _ _ _ (hwf r hr)))
      apply getField_setFields_of_write _ _ _ _ hnodup
      rw [getField_setField, if_pos rfl]
  · intro now rid m c rs c' ids hm hwf hcKeys hrsKeys h
    refine upsertLoop_inv (commentParams now rid none (some m))
      (fun d => hasKey d "issue_id" = false ∧
        (d ∈ c ∨ getField d "pull_request_id" = some (Value.vInt m)))
      rs c c' ids h (fun d hd => ⟨hcKeys d hd, Or.inl hd⟩) ?_ ?_
    · intro r hr hs b hb
      rw [comment_proc_pr_call now rid m hm r]
      have hkeys : ∀ p ∈ setField (setField (add_timestamp now r) "repository_id"
          (Value.vInt rid)) "pull_request_id" (Value.vInt m), p.1 ≠ "issue_id" := by
        intro p hp hpk
        rcases keys_comment_write now rid "pull_request_id" (Value.vInt m) r p hp with hk | hk | hk | hk
        · exact (hasKey_eq_false_iff r "issue_id").mp (hrsKeys r hr) (hpk ▸ hk)
        all_goals rw [hpk] at hk
        all_goals exact absurd hk (by decide)
      refine ⟨getField_none_hasKey _ _ (getField_setFields_none b _ _
        (hasKey_false_getField b _ hb.1) hkeys), Or.inr ?_⟩
      have hnodup : ((setField (setField (add_timestamp now r) "repository_id"
          (Value.vInt rid)) "pull_request_id" (Value.vInt m)).map Prod.fst).Nodup :=
        nodup_keys_setField _ _ _ (nodup_keys_setField _ _ _ (nodup_keys_setField _ _ _ (hwf r hr)))
      apply getField_setFields_of_write _ _ _ _ hnodup
      rw [getField_setField, if_pos rfl]
    · intro r hr hs f hf
      have hfval : ∃ v, f = [("id", v)] := by
        simp only [commentParams, Option.map_eq_some'] at hf
        obtain ⟨v, hv1, hv2⟩ := hf
        exact ⟨v, hv2.symm⟩
      obtain ⟨v, rfl⟩ := hfval
      rw [comment_proc_pr_call now rid m hm r]
      have hkeys : ∀ p ∈ setField (setField (add_timestamp now r) "repository_id"
          (Value.vInt rid)) "pull_request_id" (Value.vInt m), p.1 ≠ "issue_id" := by
        intro p hp hpk
        rcases keys_comment_write now rid "pull_request_id" (Value.vInt m) r p hp with hk | hk | hk | hk
        · exact (hasKey_eq_false_iff r "issue_id").mp (hrsKeys r hr) (hpk ▸ hk)
        all_goals rw [hpk] at hk
        all_goals exact absurd hk (by decide)
      have hfnone : getField [("id", v)] "issue_id" = none := by
        have hb : (("id", v).1 == "issue_id") = false := by
          show (("id" : String) == "issue_id") = false
          decide
        rw [getField_cons, hb]
        rfl
      refine ⟨getField_none_hasKey _ _ (getField_setFields_none _ _ _ hfnone hkeys), Or.inr ?_⟩
      have hnodup : ((setField (setField (add_timestamp now r) "repository_id"
          (Value.vInt rid)) "pull_request_id" (Value.vInt m)).map Prod.fst).Nodup :=
        nodup_keys_setField _ _ _ (nodup_keys_setField _ _ _ (nodup_keys_setField _ _ _ (hwf r hr)))
      apply getField_setFields_of_write _ _ _ _ hnodup
      rw [getField_setField, if_pos rfl]

/-- Witness for C6: an issue comment stored with issue number 7 carries
`issue_id = 7` and no `pull_request_id`. -/
theorem c6_witness :
    hasKey [("id", Value.vInt 10), ("collected_at", Value.vTime 3),
      ("repository_id", Value.vInt 1), ("issue_id", Value.vInt 7)] "pull_request_id" = false ∧
    (([("id", Value.vInt 10), ("collected_at", Value.vTime 3),
      ("repository_id", Value.vInt 1), ("issue_id", Value.vInt 7)] : Doc) ∈ ([] : List Doc) ∨
      getField [("id", Value.vInt 10), ("collected_at", Value.vTime 3),
        ("repository_id", Value.vInt 1), ("issue_id", Value.vInt 7)] "issue_id"
        = some (Value.vInt 7)) :=
  c6_foreign_key_threading.2.2.2.2.2.1 3 1 7 [] [[("id", Value.vInt 10)]]
    [[("id", Value.vInt 10), ("collected_at", Value.vTime 3),
      ("repository_id", Value.vInt 1), ("issue_id", Value.vInt 7)]] [Value.vInt 10]
    (by decide) (by intro r hr; simp at hr; rw [hr]; decide)
    (by intro d hd; simp at hd) (by intro r hr; simp at hr; rw [hr]; decide)
    (by decide)
    [("id", Value.vInt 10), ("collected_at", Value.vTime 3),
      ("repository_id", Value.vInt 1), ("issue_id", Value.vInt 7)] (by decide)

/-- Counterexample to claim C3 as stated: with a PR-marked record of number
7 and an unmarked issue also numbered 7 in the same input, the marked
record's number 7 is present in the returned issue-number list (contributed
by the unmarked record), so "its number is absent from the returned
issue-number list" fails for this input. -/
theorem c3_counterexample :
    (store_issues 0 1 []
      [[("id", Value.vInt 1), ("number", Value.vInt 7), ("pull_request", Value.vNull)],
       [("id", Value.vInt 2), ("number", Value.vInt 7)]]).map Prod.snd
      = some [Value.vInt 7] := by decide

/-- The issue store reads the record's own `number` for the returned key. -/
theorem issue_ret_eq_number (now : Nat) (rid : Int) (r : Doc) :
    (issueParams now rid).ret ((issueParams now rid).proc r) = getField r "number" := by
  show getField (setField (add_timestamp now r) "repository_id" (Value.vInt rid)) "number"
    = getField r "number"
  rw [getField_setField, if_neg (by decide), getField_add_timestamp_ne now r _ (by decide)]

/-- Claim C3 (amended): records carrying a `pull_request` marker are not
upserted and not counted — the store behaves exactly as if they were
filtered out of the input — and a marked record's number is absent from the
returned issue-number list unless an unmarked record of the same input
carries that same number (the returned list is exactly the unmarked
records' numbers). -/
theorem c3_pr_issue_disambiguation :
    (∀ now rid c issues,
      store_issues now rid c issues =
        store_issues now rid c (issues.filter (fun i => !hasKey i "pull_request"))) ∧
    (∀ now rid c issues c' ids, store_issues now rid c issues = some (c', ids) →
      ids.length = (issues.filter (fun i => !hasKey i "pull_request")).length) ∧
    (∀ now rid c issues c' ids, store_issues now rid c issues = some (c', ids) →
      ∀ issue ∈ issues, hasKey issue "pull_request" = true →
      ∀ v, getField issue "number" = some v →
      (∀ j ∈ issues, hasKey j "pull_request" = false → getField j "number" ≠ some v) →
      v ∉ ids) := by
  refine ⟨?_, ?_, ?_⟩
  · intro now rid c issues
    exact upsertLoop_filter_skip (issueParams now rid) issues c
  · intro now rid c issues c' ids h
    exact (upsertLoop_ids_spec (issueParams now rid) issues c c' ids h).1
  · intro now rid c issues c' ids h issue hmem hmark v hnum hclean hv
    obtain ⟨r, hr, hskip, hret⟩ := (upsertLoop_ids_spec (issueParams now rid) issues c c' ids h).2 v hv
    rw [issue_ret_eq_number now rid r] at hret
    exact hclean r hr hskip hret

/-- Witness for C3's amended theorem: with only a marked record numbered 7
in the input, 7 is not among the returned numbers (the run returns none at
all). -/
theorem c3_witness :
    Value.vInt 7 ∉ ([] : List Value) :=
  c3_pr_issue_disambiguation.2.2 0 1 []
    [[("id", Value.vInt 1), ("number", Value.vInt 7), ("pull_request", Value.vNull)]]
    [] [] (by decide)
    [("id", Value.vInt 1), ("number", Value.vInt 7), ("pull_request", Value.vNull)]
    (by decide) (by decide) (Value.vInt 7) (by decide)
    (by intro j hj hc; simp at hj; rw [hj] at hc; simp [hasKey, getField, List.find?] at hc)

/-- `SimEq` is transitive. -/
theorem SimEq.trans' {a b c : List Doc} (h1 : SimEq a b) (h2 : SimEq b c) : SimEq a c :=
  ⟨h1.1.trans h2.1, fun j k hk => (h1.2 j k hk).trans (h2.2 j k hk)⟩

/-- Matching a timestamp-free filter only looks at non-timestamp fields. -/
theorem matchesFilter_congr (f : Doc) (d d' : Doc)
    (hf : ∀ p ∈ f, p.1 ≠ "collected_at")
    (hd : ∀ k, k ≠ "collected_at" → getField d k = getField d' k) :
    matchesFilter f d = matchesFilter f d' := by
  induction f with
  | nil => rfl
  | cons p f ih =>
    simp only [matchesFilter, List.all_cons]
    rw [hd p.1 (hf p (List.mem_cons_self p f))]
    have h2 : (f.all fun q => getField d q.1 == some q.2) =
        (f.all fun q => getField d' q.1 == some q.2) :=
      ih (fun q hq => hf q (List.mem_cons_of_mem p hq))
    rw [h2]

/-- `firstMatch` with a timestamp-free filter is identical on `SimEq`
collections. -/
theorem firstMatch_congr (f : Doc) (c c' : List Doc)
    (hf : ∀ p ∈ f, p.1 ≠ "collected_at") (hsim : SimEq c c') :
    firstMatch f c = firstMatch f c' := by
  have hmc : ∀ j, matchesFilter f (c.getD j []) = matchesFilter f (c'.getD j []) :=
    fun j => matchesFilter_congr f _ _ hf (fun k hk => hsim.2 j k hk)
  cases hm : firstMatch f c with
  | some i =>
    obtain ⟨h1, h2, h3⟩ := firstMatch_eq_some f c i hm
    symm
    apply firstMatch_eq_some_of
    · rw [← hsim.1]
      exact h1
    · rw [← hmc i]
      exact h2
    · intro j hj
      rw [← hmc j]
      exact h3 j hj
  | none =>
    symm
    rw [firstMatch_eq_none]
    intro d hd
    obtain ⟨j, hj, rfl⟩ := List.mem_iff_getElem.mp hd
    rw [← List.getD_eq_getElem c' [] hj, ← hmc j]
    have hjc : j < c.length := by
      rw [hsim.1]
      exact hj
    exact (firstMatch_eq_none f c).mp hm _ (getD_mem c j hjc)

/-- `$set` congruence: merging updates that agree outside `collected_at`
into bases that agree outside `collected_at` agrees outside
`collected_at`. -/
theorem getField_setFields_congr (b b' u u' : Doc)
    (hb : ∀ k, k ≠ "collected_at" → getField b k = getField b' k)
    (hu : ∀ k, k ≠ "collected_at" → lastVal u k = lastVal u' k) :
    ∀ k, k ≠ "collected_at" → getField (setFields b u) k = getField (setFields b' u') k := by
  intro k hk
  rw [getField_setFields, getField_setFields, hu k hk, hb k hk]

/-- Upserting through a timestamp-free filter with updates that agree
outside `collected_at` preserves `SimEq`. -/
theorem updateOneUpsert_sim (c c' : List Doc) (f u u' : Doc)
    (hf : ∀ p ∈ f, p.1 ≠ "collected_at")
    (hsim : SimEq c c')
    (hu : ∀ k, k ≠ "collected_at" → lastVal u k = lastVal u' k) :
    SimEq (updateOneUpsert c f u) (updateOneUpsert c' f u') := by
  have hfm := firstMatch_congr f c c' hf hsim
  cases hm : firstMatch f c with
  | some i =>
    have hm' : firstMatch f c' = some i := by rw [← hfm, hm]
    have hi : i < c.length := (firstMatch_eq_some f c i hm).1
    simp only [updateOneUpsert, hm, hm']
    constructor
    · simp [List.length_set, hsim.1]
    · intro j k hk
      rw [getD_set, getD_set]
      by_cases hij : i = j ∧ i < c.length
      · rw [if_pos hij, if_pos ⟨hij.1, by rw [← hsim.1]; exact hij.2⟩]
        exact getField_setFields_congr _ _ u u' (fun k2 hk2 => hsim.2 i k2 hk2) hu k hk
      · rw [if_neg hij, if_neg (fun hc => hij ⟨hc.1, by rw [hsim.1]; exact hc.2⟩)]
        exact hsim.2 j k hk
  | none =>
    have hm' : firstMatch f c' = none := by rw [← hfm, hm]
    simp only [updateOneUpsert, hm, hm']
    constructor
    · simp [hsim.1]
    · intro j k hk
      rw [getD_append_one, getD_append_one]
      by_cases h1 : j < c.length
      · rw [if_pos h1, if_pos (show j < c'.length by rw [← hsim.1]; exact h1)]
        exact hsim.2 j k hk
      · rw [if_neg h1, if_neg (show ¬j < c'.length by rw [← hsim.1]; exact h1)]
        by_cases h2 : j = c.length
        · rw [if_pos h2, if_pos (show j = c'.length by rw [← hsim.1]; exact h2)]
          exact getField_setFields_congr f f u u' (fun _ _ => rfl) hu k hk
        · rw [if_neg h2, if_neg (show ¬j = c'.length by rw [← hsim.1]; exact h2)]

/-- Rebuilding a successful loop step. -/
theorem upsertLoop_cons_build (P : StoreParams) (c : List Doc) (r : Doc) (rest : List Doc)
    (cc : List Doc) (ids : List Value) (v : Value) (f : Doc)
    (hs : P.skip r = false) (hf : P.filt (P.proc r) = some f)
    (hv : P.ret (P.proc r) = some v)
    (hl : upsertLoop P (updateOneUpsert c f (P.proc r)) rest = some (cc, ids)) :
    upsertLoop P c (r :: rest) = some (cc, v :: ids) := by
  simp only [upsertLoop, hs, Bool.false_eq_true, if_false, hf, Option.some_bind, hv, hl,
    Option.map_some']

/-- A loop run started from a `SimEq` collection succeeds with the same
keys and a `SimEq` result (filters are timestamp-free). -/
theorem upsertLoop_sim (P : StoreParams) :
    ∀ (rs c c' cc : List Doc) (ids : List Value),
      (∀ r ∈ rs, ∀ f, P.filt (P.proc r) = some f → ∀ p ∈ f, p.1 ≠ "collected_at") →
      SimEq c c' →
      upsertLoop P c rs = some (cc, ids) →
      ∃ cc', upsertLoop P c' rs = some (cc', ids) ∧ SimEq cc cc' := by
  intro rs
  induction rs with
  | nil =>
    intro c c' cc ids _ hsim h
    simp only [upsertLoop, Option.some.injEq, Prod.mk.injEq] at h
    exact ⟨c', by rw [← h.2]; rfl, h.1 ▸ hsim⟩
  | cons r rest ih =>
    intro c c' cc ids hTS hsim h
    cases hs : P.skip r with
    | true =>
      rw [upsertLoop_cons_skip P c r rest hs] at h
      obtain ⟨cc', h1, h2⟩ := ih c c' cc ids
        (fun r' hr' => hTS r' (List.mem_cons_of_mem r hr')) hsim h
      exact ⟨cc', by rw [upsertLoop_cons_skip P c' r rest hs]; exact h1, h2⟩
    | false =>
      obtain ⟨f, v, ids', hf, hv, hl, rfl⟩ := upsertLoop_cons_succ P c r rest cc ids hs h
      have hstep := updateOneUpsert_sim c c' f (P.proc r) (P.proc r)
        (hTS r (List.mem_cons_self r rest) f hf) hsim (fun _ _ => rfl)
      obtain ⟨cc', hlc', hsim'⟩ := ih (updateOneUpsert c f (P.proc r))
        (updateOneUpsert c' f (P.proc r)) cc ids'
        (fun r' hr' => hTS r' (List.mem_cons_of_mem r hr')) hstep hl
      exact ⟨cc', upsertLoop_cons_build P c' r rest cc' ids' v f hs hf hv hlc', hsim'⟩

/-- The first match in a prefix stays the first match after appending. -/
theorem firstMatch_append_of_some (f : Doc) (c : List Doc) (y : Doc) (p : Nat)
    (h : firstMatch f c = some p) : firstMatch f (c ++ [y]) = some p := by
  obtain ⟨h1, h2, h3⟩ := firstMatch_eq_some f c p h
  apply firstMatch_eq_some_of
  · simp only [List.length_append, List.length_singleton]
    omega
  · rw [getD_append_one, if_pos h1]
    exact h2
  · intro j hj
    rw [getD_append_one, if_pos (by omega)]
    exact h3 j hj

/-- When none of the prefix matches but the appended document does, the
first match is the appended position. -/
theorem firstMatch_append_none (f : Doc) (c : List Doc) (y : Doc)
    (h : firstMatch f c = none) (hy : matchesFilter f y = true) :
    firstMatch f (c ++ [y]) = some c.length := by
  apply firstMatch_eq_some_of
  · simp
  · rw [getD_append_one, if_neg (by omega), if_pos rfl]
    exact hy
  · intro j hj
    rw [getD_append_one, if_pos hj]
    exact (firstMatch_eq_none f c).mp h _ (getD_mem c j hj)

/-- After upserting with a filter its update imposes, a first match for that
filter exists and its document has the merged-update shape. -/
theorem firstMatch_updateOneUpsert_self (c : List Doc) (f u : Doc)
    (himp : ∀ d, matchesFilter f (setFields d u) = true) :
    ∃ p b, firstMatch f (updateOneUpsert c f u) = some p ∧
      (updateOneUpsert c f u).getD p [] = setFields b u := by
  cases hm : firstMatch f c with
  | some i =>
    obtain ⟨h1, h2, h3⟩ := firstMatch_eq_some f c i hm
    refine ⟨i, c.getD i [], ?_, ?_⟩
    · simp only [updateOneUpsert, hm]
      apply firstMatch_eq_some_of
      · simpa [List.length_set] using h1
      · rw [getD_set, if_pos ⟨rfl, h1⟩]
        exact himp _
      · intro j hj
        rw [getD_set, if_neg (fun hc => by omega)]
        exact h3 j hj
    · simp only [updateOneUpsert, hm]
      rw [getD_set, if_pos ⟨rfl, h1⟩]
  | none =>
    refine ⟨c.length, f, ?_, ?_⟩
    · simp only [updateOneUpsert, hm]
      exact firstMatch_append_none f c _ hm (himp f)
    · simp only [updateOneUpsert, hm]
      rw [getD_append_one, if_neg (by omega), if_pos rfl]

/-- A successful loop run had a filter value for every non-skipped record. -/
theorem upsertLoop_filt_some (P : StoreParams) :
    ∀ (rs c c' : List Doc) (ids : List Value),
      upsertLoop P c rs = some (c', ids) →
      ∀ r ∈ rs, P.skip r = false → ∃ f, P.filt (P.proc r) = some f := by
  intro rs
  induction rs with
  | nil =>
    intro c c' ids _ r hr
    simp at hr
  | cons r rest ih =>
    intro c c' ids h r' hr' hsk
    cases hs : P.skip r with
    | true =>
      rw [upsertLoop_cons_skip P c r rest hs] at h
      rcases List.mem_cons.mp hr' with rfl | hr'
      · rw [hs] at hsk
        exact absurd hsk (by simp)
      · exact ih c c' ids h r' hr' hsk
    | false =>
      obtain ⟨f, v, ids', hf, hv, hl, rfl⟩ := upsertLoop_cons_succ P c r rest c' ids hs h
      rcases List.mem_cons.mp hr' with rfl | hr'
      · exact ⟨f, hf⟩
      · exact ih _ c' ids' hl r' hr' hsk

/-- Stable-choice invariant: while the remaining records of a pass all use
filters other than `f` (and their writes never produce an `f`-match, nor do
their filters match a document of the `setFields _ u` shape), the first
`f`-match position and its document survive the rest of the pass
untouched. -/
theorem upsertLoop_k1 (P : StoreParams) (f u : Doc) :
    ∀ (rest S D : List Doc) (ids : List Value) (p : Nat),
      upsertLoop P S rest = some (D, ids) →
      firstMatch f S = some p →
      (∃ b, S.getD p [] = setFields b u) →
      (∀ r ∈ rest, P.skip r = false → ∀ d, matchesFilter f (setFields d (P.proc r)) = false) →
      (∀ r ∈ rest, P.skip r = false → ∀ f', P.filt (P.proc r) = some f' →
        ∀ d, matchesFilter f' (setFields d u) = false) →
      firstMatch f D = some p ∧ D.getD p [] = S.getD p [] := by
  intro rest
  induction rest with
  | nil =>
    intro S D ids p h hp hpb _ _
    simp only [upsertLoop, Option.some.injEq, Prod.mk.injEq] at h
    rw [← h.1]
    exact ⟨hp, rfl⟩
  | cons r' rest' ih =>
    intro S D ids p h hp hpb hexcl hexclsym
    cases hs : P.skip r' with
    | true =>
      rw [upsertLoop_cons_skip P S r' rest' hs] at h
      exact ih S D ids p h hp hpb
        (fun r hr => hexcl r (List.mem_cons_of_mem r' hr))
        (fun r hr => hexclsym r (List.mem_cons_of_mem r' hr))
    | false =>
      obtain ⟨f', v, ids', hf', hv', hl', rfl⟩ := upsertLoop_cons_succ P S r' rest' D ids hs h
      obtain ⟨b, hb⟩ := hpb
      obtain ⟨hplen, hpmatch, hpfirst⟩ := firstMatch_eq_some f S p hp
      have hstep : firstMatch f (updateOneUpsert S f' (P.proc r')) = some p ∧
          (updateOneUpsert S f' (P.proc r')).getD p [] = S.getD p [] := by
        cases hm : firstMatch f' S with
        | some q =>
          have hqp : q ≠ p := by
            intro hqp
            have hq2 := (firstMatch_eq_some f' S q hm).2.1
            rw [hqp, hb] at hq2
            rw [hexclsym r' (List.mem_cons_self r' rest') hs f' hf' b] at hq2
            exact absurd hq2 (by simp)
          constructor
          · simp only [updateOneUpsert, hm]
            apply firstMatch_eq_some_of
            · simpa [List.length_set] using hplen
            · rw [getD_set, if_neg (fun hc => hqp hc.1)]
              exact hpmatch
            · intro j hj
              rw [getD_set]
              by_cases hqj : q = j ∧ q < S.length
              · rw [if_pos hqj]
                exact hexcl r' (List.mem_cons_self r' rest') hs _
              · rw [if_neg hqj]
                exact hpfirst j hj
          · simp only [updateOneUpsert, hm]
            rw [getD_set, if_neg (fun hc => hqp hc.1)]
        | none =>
          constructor
          · simp only [updateOneUpsert, hm]
            exact firstMatch_append_of_some f S _ p hp
          · simp only [updateOneUpsert, hm]
            rw [getD_append_one, if_pos hplen]
      obtain ⟨hstep1, hstep2⟩ := hstep
      obtain ⟨hfin1, hfin2⟩ := ih (updateOneUpsert S f' (P.proc r')) D ids' p hl' hstep1
        ⟨b, by rw [hstep2, hb]⟩
        (fun r hr => hexcl r (List.mem_cons_of_mem r' hr))
        (fun r hr => hexclsym r (List.mem_cons_of_mem r' hr))
      exact ⟨hfin1, by rw [hfin2, hstep2]⟩

/-- Generic upsert idempotence: running the same batch a second time (with a
fresh clock) returns the same keys and leaves the collection with the same
length and the same per-position content outside `collected_at`.  Requires:
the second pass agrees with the first on skipping, filters and returned
keys, and on document content outside the timestamp; filters are
timestamp-free; each write imposes its own filter; writes never make a
document match a different record's filter; and the batch's filters are
pairwise distinct. -/
theorem upsertLoop_idem (P₁ P₂ : StoreParams)
    (hskip : ∀ r, P₂.skip r = P₁.skip r) :
    ∀ (rs c c₁ : List Doc) (ids₁ : List Value) (c₂ : List Doc) (ids₂ : List Value),
      (∀ r ∈ rs, P₂.filt (P₂.proc r) = P₁.filt (P₁.proc r)) →
      (∀ r ∈ rs, P₂.ret (P₂.proc r) = P₁.ret (P₁.proc r)) →
      (∀ r ∈ rs, ∀ k, k ≠ "collected_at" → lastVal (P₂.proc r) k = lastVal (P₁.proc r) k) →
      (∀ r ∈ rs, ∀ f, P₁.filt (P₁.proc r) = some f → ∀ p ∈ f, p.1 ≠ "collected_at") →
      (∀ r ∈ rs, P₁.skip r = false → ∀ f, P₁.filt (P₁.proc r) = some f →
        ∀ d, matchesFilter f (setFields d (P₁.proc r)) = true) →
      (∀ r ∈ rs, ∀ r' ∈ rs, P₁.skip r = false → P₁.skip r' = false →
        ∀ f f', P₁.filt (P₁.proc r) = some f → P₁.filt (P₁.proc r') = some f' → f ≠ f' →
        ∀ d, matchesFilter f (setFields d (P₁.proc r')) = false) →
      ((rs.filter (fun x => !P₁.skip x)).map (fun x => P₁.filt (P₁.proc x))).Nodup →
      upsertLoop P₁ c rs = some (c₁, ids₁) →
      upsertLoop P₂ c₁ rs = some (c₂, ids₂) →
      ids₂ = ids₁ ∧ SimEq c₂ c₁ := by
  intro rs
  induction rs with
  | nil =>
    intro c c₁ ids₁ c₂ ids₂ _ _ _ _ _ _ _ h₁ h₂
    simp only [upsertLoop, Option.some.injEq, Prod.mk.injEq] at h₁ h₂
    constructor
    · rw [← h₁.2, ← h₂.2]
    · rw [← h₂.1]
      exact ⟨rfl, fun j k hk => rfl⟩
  | cons r rest ih =>
    intro c c₁ ids₁ c₂ ids₂ hfilt hret hproc hTS himp hexcl hnd h₁ h₂
    have hdr : r ∈ r :: rest := List.mem_cons_self r rest
    cases hs : P₁.skip r with
    | true =>
      have hs₂ : P₂.skip r = true := (hskip r).trans hs
      rw [upsertLoop_cons_skip P₁ c r rest hs] at h₁
      rw [upsertLoop_cons_skip P₂ c₁ r rest hs₂] at h₂
      have hndr : ((rest.filter (fun x => !P₁.skip x)).map (fun x => P₁.filt (P₁.proc x))).Nodup := by
        have hfl : (r :: rest).filter (fun x => !P₁.skip x) = rest.filter (fun x => !P₁.skip x) := by
          simp [List.filter, hs]
        rw [hfl] at hnd
        exact hnd
      exact ih c c₁ ids₁ c₂ ids₂
        (fun a ha => hfilt a (List.mem_cons_of_mem r ha))
        (fun a ha => hret a (List.mem_cons_of_mem r ha))
        (fun a ha => hproc a (List.mem_cons_of_mem r ha))
        (fun a ha => hTS a (List.mem_cons_of_mem r ha))
        (fun a ha => himp a (List.mem_cons_of_mem r ha))
        (fun a ha b hb => hexcl a (List.mem_cons_of_mem r ha) b (List.mem_cons_of_mem r hb))
        hndr h₁ h₂
    | false =>
      have hs₂ : P₂.skip r = false := (hskip r).trans hs
      obtain ⟨f₁, v₁, ids₁', hf₁, hv₁, hl₁, rfl⟩ := upsertLoop_cons_succ P₁ c r rest c₁ _ hs h₁
      obtain ⟨f₂, v₂, ids₂', hf₂, hv₂, hl₂, rfl⟩ := upsertLoop_cons_succ P₂ c₁ r rest c₂ _ hs₂ h₂
      have hff : f₂ = f₁ := by
        have hh := hfilt r hdr
        rw [hf₂, hf₁] at hh
        exact Option.some.inj hh
      subst hff
      have hvv : v₂ = v₁ := by
        have hh := hret r hdr
        rw [hv₂, hv₁] at hh
        exact Option.some.inj hh
      subst hvv
      have hfilcons : (r :: rest).filter (fun x => !P₁.skip x) =
          r :: rest.filter (fun x => !P₁.skip x) := by
        simp [List.filter, hs]
      rw [hfilcons, List.map_cons, List.nodup_cons] at hnd
      have hne : ∀ r' ∈ rest, P₁.skip r' = false →
          ∀ f', P₁.filt (P₁.proc r') = some f' → f' ≠ f₂ := by
        intro r' hr' hsk f' hf' hcontra
        apply hnd.1
        have hmem : P₁.filt (P₁.proc r') ∈
            (rest.filter (fun x => !P₁.skip x)).map (fun x => P₁.filt (P₁.proc x)) :=
          List.mem_map_of_mem _ (List.mem_filter.mpr ⟨hr', by simp [hsk]⟩)
        rw [hf', hcontra, ← hf₁] at hmem
        exact hmem
      have hfs := upsertLoop_filt_some P₁ rest _ c₁ ids₁' hl₁
      obtain ⟨p, b, hpfm, hpd⟩ := firstMatch_updateOneUpsert_self c f₂ (P₁.proc r)
        (himp r hdr hs f₂ hf₁)
      obtain ⟨hfm₁, hgd⟩ := upsertLoop_k1 P₁ f₂ (P₁.proc r) rest _ c₁ ids₁' p hl₁ hpfm ⟨b, hpd⟩
        (by
          intro r' hr' hsk d
          obtain ⟨f', hf'⟩ := hfs r' hr' hsk
          exact hexcl r hdr r' (List.mem_cons_of_mem r hr') hs hsk f₂ f' hf₁ hf'
            (Ne.symm (hne r' hr' hsk f' hf')) d)
        (by
          intro r' hr' hsk f' hf' d
          exact hexcl r' (List.mem_cons_of_mem r hr') r hdr hsk hs f' f₂ hf' hf₁
            (hne r' hr' hsk f' hf') d)
      have hpb : c₁.getD p [] = setFields b (P₁.proc r) := by rw [hgd, hpd]
      have hplen : p < c₁.length := (firstMatch_eq_some f₂ c₁ p hfm₁).1
      have hsimstep : SimEq (updateOneUpsert c₁ f₂ (P₂.proc r)) c₁ := by
        have hstep₂eq : updateOneUpsert c₁ f₂ (P₂.proc r) =
            c₁.set p (setFields (c₁.getD p []) (P₂.proc r)) := by
          simp only [updateOneUpsert, hfm₁]
        rw [hstep₂eq]
        constructor
        · simp [List.length_set]
        · intro j k hk
          rw [getD_set]
          by_cases hij : p = j ∧ p < c₁.length
          · obtain ⟨hpj, h2⟩ := hij
            subst hpj
            rw [if_pos ⟨rfl, h2⟩, hpb, getField_setFields, hproc r hdr k hk, getField_setFields]
            cases lastVal (P₁.proc r) k <;> simp [Option.or]
          · rw [if_neg hij]
      have hTS₂ : ∀ r' ∈ rest, ∀ g, P₂.filt (P₂.proc r') = some g →
          ∀ q ∈ g, q.1 ≠ "collected_at" := by
        intro r' hr' g hg
        rw [hfilt r' (List.mem_cons_of_mem r hr')] at hg
        exact hTS r' (List.mem_cons_of_mem r hr') g hg
      obtain ⟨cc', hlc', hsim'⟩ := upsertLoop_sim P₂ rest _ c₁ c₂ ids₂' hTS₂ hsimstep hl₂
      have hfin := ih (updateOneUpsert c f₂ (P₁.proc r)) c₁ ids₁' cc' ids₂'
        (fun a ha => hfilt a (List.mem_cons_of_mem r ha))
        (fun a ha => hret a (List.mem_cons_of_mem r ha))
        (fun a ha => hproc a (List.mem_cons_of_mem r ha))
        (fun a ha => hTS a (List.mem_cons_of_mem r ha))
        (fun a ha => himp a (List.mem_cons_of_mem r ha))
        (fun a ha b2 hb2 => hexcl a (List.mem_cons_of_mem r ha) b2 (List.mem_cons_of_mem r hb2))
        hnd.2 hl₁ hlc'
      exact ⟨by rw [hfin.1], SimEq.trans' hsim' hfin.2⟩

/-- Comparing two optional values commutes into a plain key comparison. -/
theorem beq_some_comm (v w : Value) : (some v == some w) = (w == v) := by
  rw [Bool.eq_iff_iff]
  simp only [beq_iff_eq, Option.some.injEq]
  exact eq_comm

/-- Matching a one-field filter. -/
theorem matchesFilter_single (k : String) (v : Value) (d : Doc) :
    matchesFilter [(k, v)] d = (getField d k == some v) := by
  simp [matchesFilter]

/-- Matching a two-field filter. -/
theorem matchesFilter_pair (k₁ : String) (v₁ : Value) (k₂ : String) (v₂ : Value) (d : Doc) :
    matchesFilter [(k₁, v₁), (k₂, v₂)] d =
      ((getField d k₁ == some v₁) && (getField d k₂ == some v₂)) := by
  simp [matchesFilter]

/-- Timestamp-plus-`repository_id` injection, field by field. -/
theorem getField_inject_proc (now : Nat) (rid : Int) (r : Doc) (k : String) :
    getField (setField (add_timestamp now r) "repository_id" (Value.vInt rid)) k =
      if k = "repository_id" then some (Value.vInt rid)
      else if k = "collected_at" then some (Value.vTime now) else getField r k := by
  rw [getField_setField]
  by_cases h1 : k = "repository_id"
  · rw [if_pos h1, if_pos h1]
  · rw [if_neg h1, if_neg h1, add_timestamp, getField_setField]

/-- The repository store's written document, field by field. -/
theorem getField_repo_proc (now : Nat) (r : Doc) (k : String) :
    getField (add_timestamp now r) k =
      if k = "collected_at" then some (Value.vTime now) else getField r k := by
  rw [add_timestamp, getField_setField]

/-- Outside `collected_at`, the injected document does not depend on the
write clock. -/
theorem getField_inject_time (t t' : Nat) (rid : Int) (r : Doc) (k : String)
    (hk : k ≠ "collected_at") :
    getField (setField (add_timestamp t r) "repository_id" (Value.vInt rid)) k =
      getField (setField (add_timestamp t' r) "repository_id" (Value.vInt rid)) k := by
  rw [getField_inject_proc, getField_inject_proc]
  by_cases h2 : k = "repository_id"
  · rw [if_pos h2, if_pos h2]
  · rw [if_neg h2, if_neg h2, if_neg hk, if_neg hk]

/-- The comment store's written document reads the record itself on every
field other than the four injected ones. -/
theorem getField_comment_proc_ne (now : Nat) (rid : Int) (iid pid : Option Int) (r : Doc)
    (k : String) (h1 : k ≠ "collected_at") (h2 : k ≠ "repository_id")
    (h3 : k ≠ "issue_id") (h4 : k ≠ "pull_request_id") :
    getField ((commentParams now rid iid pid).proc r) k = getField r k := by
  cases hti : truthyInt iid with
  | false =>
    cases htp : truthyInt pid with
    | false =>
      simp only [commentParams, hti, htp, Bool.false_eq_true, if_false]
      rw [getField_inject_proc, if_neg h2, if_neg h1]
    | true =>
      simp only [commentParams, hti, htp, Bool.false_eq_true, if_false, if_true]
      rw [getField_setField, if_neg h4, getField_inject_proc, if_neg h2, if_neg h1]
  | true =>
    cases htp : truthyInt pid with
    | false =>
      simp only [commentParams, hti, htp, Bool.false_eq_true, if_false, if_true]
      rw [getField_setField, if_neg h3, getField_inject_proc, if_neg h2, if_neg h1]
    | true =>
      simp only [commentParams, hti, htp, if_true]
      rw [getField_setField, if_neg h4, getField_setField, if_neg h3,
        getField_inject_proc, if_neg h2, if_neg h1]

/-- Outside `collected_at`, the comment store's written document does not
depend on the write clock. -/
theorem getField_comment_proc_time (t t' : Nat) (rid : Int) (iid pid : Option Int) (r : Doc)
    (k : String) (hk : k ≠ "collected_at") :
    getField ((commentParams t rid iid pid).proc r) k =
      getField ((commentParams t' rid iid pid).proc r) k := by
  cases hti : truthyInt iid with
  | false =>
    cases htp : truthyInt pid with
    | false =>
      simp only [commentParams, hti, htp, Bool.false_eq_true, if_false]
      exact getField_inject_time t t' rid r k hk
    | true =>
      simp only [commentParams, hti, htp, Bool.false_eq_true, if_false, if_true]
      conv_lhs => rw [getField_setField]
      conv_rhs => rw [getField_setField]
      by_cases h4 : k = "pull_request_id"
      · rw [if_pos h4, if_pos h4]
      · rw [if_neg h4, if_neg h4]
        exact getField_inject_time t t' rid r k hk
  | true =>
    cases htp : truthyInt pid with
    | false =>
      simp only [commentParams, hti, htp, Bool.false_eq_true, if_false, if_true]
      conv_lhs => rw [getField_setField]
      conv_rhs => rw [getField_setField]
      by_cases h3 : k = "issue_id"
      · rw [if_pos h3, if_pos h3]
      · rw [if_neg h3, if_neg h3]
        exact getField_inject_time t t' rid r k hk
    | true =>
      simp only [commentParams, hti, htp, if_true]
      conv_lhs => rw [getField_setField]
      conv_rhs => rw [getField_setField]
      by_cases h4 : k = "pull_request_id"
      · rw [if_pos h4, if_pos h4]
      · rw [if_neg h4, if_neg h4]
        conv_lhs => rw [getField_setField]
        conv_rhs => rw [getField_setField]
        by_cases h3 : k = "issue_id"
        · rw [if_pos h3, if_pos h3]
        · rw [if_neg h3, if_neg h3]
          exact getField_inject_time t t' rid r k hk

/-- Idempotence for a store whose upsert filter is a fixed template over a
natural-key value read off the record. -/
theorem upsertLoop_idem_keyed (P₁ P₂ : StoreParams) (keyOf : Doc → Option Value)
    (tmpl : Value → Doc)
    (hskip : ∀ r, P₂.skip r = P₁.skip r)
    (htmpl_inj : ∀ v w, tmpl v = tmpl w → v = w)
    (htmpl_ts : ∀ v, ∀ p ∈ tmpl v, p.1 ≠ "collected_at") :
    ∀ (rs c c₁ : List Doc) (ids₁ : List Value) (c₂ : List Doc) (ids₂ : List Value),
      (∀ r ∈ rs, P₁.filt (P₁.proc r) = (keyOf r).map tmpl) →
      (∀ r ∈ rs, P₂.filt (P₂.proc r) = (keyOf r).map tmpl) →
      (∀ r ∈ rs, P₂.ret (P₂.proc r) = P₁.ret (P₁.proc r)) →
      (∀ r ∈ rs, ∀ k, k ≠ "collected_at" → lastVal (P₂.proc r) k = lastVal (P₁.proc r) k) →
      (∀ r ∈ rs, P₁.skip r = false → ∀ v, keyOf r = some v →
        ∀ d w, matchesFilter (tmpl w) (setFields d (P₁.proc r)) = (w == v)) →
      ((rs.filter (fun x => !P₁.skip x)).map keyOf).Nodup →
      upsertLoop P₁ c rs = some (c₁, ids₁) →
      upsertLoop P₂ c₁ rs = some (c₂, ids₂) →
      ids₂ = ids₁ ∧ SimEq c₂ c₁ := by
  intro rs c c₁ ids₁ c₂ ids₂ hfilt₁ hfilt₂ hret hproc hmatch hkeys h₁ h₂
  refine upsertLoop_idem P₁ P₂ hskip rs c c₁ ids₁ c₂ ids₂ ?_ hret hproc ?_ ?_ ?_ ?_ h₁ h₂
  · intro r hr
    rw [hfilt₂ r hr, hfilt₁ r hr]
  · intro r hr f hf p hp
    rw [hfilt₁ r hr] at hf
    obtain ⟨v, hv1, hv2⟩ := Option.map_eq_some'.mp hf
    exact htmpl_ts v p (hv2 ▸ hp)
  · intro r hr hs f hf d
    rw [hfilt₁ r hr] at hf
    obtain ⟨v, hv1, rfl⟩ := Option.map_eq_some'.mp hf
    rw [hmatch r hr hs v hv1 d v]
    simp
  · intro r hr r' hr' hs hs' f f' hf hf' hne d
    rw [hfilt₁ r hr] at hf
    rw [hfilt₁ r' hr'] at hf'
    obtain ⟨v, hv1, rfl⟩ := Option.map_eq_some'.mp hf
    obtain ⟨v', hv1', rfl⟩ := Option.map_eq_some'.mp hf'
    rw [hmatch r' hr' hs' v' hv1' d v]
    have hvv : v ≠ v' := fun hc => hne (hc ▸ rfl)
    simp [hvv]
  · have hmapeq : (rs.filter (fun x => !P₁.skip x)).map (fun x => P₁.filt (P₁.proc x)) =
        (rs.filter (fun x => !P₁.skip x)).map (fun x => (keyOf x).map tmpl) := by
      apply List.map_congr_left
      intro x hx
      exact hfilt₁ x (List.mem_filter.mp hx).1
    rw [hmapeq,
      show (fun x => (keyOf x).map tmpl) = (Option.map tmpl) ∘ keyOf from rfl,
      ← List.map_map]
    exact hkeys.map (Option.map_injective (fun v w hvw => htmpl_inj v w hvw))

/-- Idempotence of `store_repositories`. -/
theorem store_repositories_idem (t₁ t₂ : Nat) (c rs c₁ : List Doc) (ids₁ : List Value)
    (c₂ : List Doc) (ids₂ : List Value)
    (hwf : WFRecords rs) (hnd : (rs.map (fun r => getField r "id")).Nodup)
    (h₁ : store_repositories t₁ c rs = some (c₁, ids₁))
    (h₂ : store_repositories t₂ c₁ rs = some (c₂, ids₂)) :
    ids₂ = ids₁ ∧ SimEq c₂ c₁ := by
  have hid : ∀ (t : Nat) (r : Doc), getField (add_timestamp t r) "id" = getField r "id" :=
    fun t r => getField_add_timestamp_ne t r "id" (by decide)
  refine upsertLoop_idem_keyed (repoParams t₁) (repoParams t₂)
    (fun r => getField r "id") (fun v => [("id", v)])
    (fun r => rfl) (fun v w hvw => by simpa using hvw)
    (fun v p hp => by
      simp only [List.mem_singleton] at hp
      rw [hp]
      exact (show ("id" : String) ≠ "collected_at" by decide))
    rs c c₁ ids₁ c₂ ids₂ ?_ ?_ ?_ ?_ ?_ ?_ h₁ h₂
  · intro r hr
    show (getField (add_timestamp t₁ r) "id").map _ = (getField r "id").map _
    rw [hid]
  · intro r hr
    show (getField (add_timestamp t₂ r) "id").map _ = (getField r "id").map _
    rw [hid]
  · intro r hr
    show (getField (add_timestamp t₂ r) "id").map _ = (getField (add_timestamp t₁ r) "id").map _
    rw [hid, hid]
  · intro r hr k hk
    have hn₁ : ((add_timestamp t₁ r).map Prod.fst).Nodup := nodup_keys_setField r _ _ (hwf r hr)
    have hn₂ : ((add_timestamp t₂ r).map Prod.fst).Nodup := nodup_keys_setField r _ _ (hwf r hr)
    show lastVal (add_timestamp t₂ r) k = lastVal (add_timestamp t₁ r) k
    rw [lastVal_eq_getField (add_timestamp t₂ r) k hn₂,
      lastVal_eq_getField (add_timestamp t₁ r) k hn₁,
      getField_repo_proc, getField_repo_proc, if_neg hk, if_neg hk]
  · intro r hr hs v hv d w
    have hn₁ : ((add_timestamp t₁ r).map Prod.fst).Nodup := nodup_keys_setField r _ _ (hwf r hr)
    have hu : getField (add_timestamp t₁ r) "id" = some v := by rw [hid]; exact hv
    show matchesFilter [("id", w)] (setFields d (add_timestamp t₁ r)) = (w == v)
    rw [matchesFilter_single,
      getField_setFields_of_write d (add_timestamp t₁ r) "id" v hn₁ hu,
      beq_some_comm]
  · have hfl : rs.filter (fun x => !(repoParams t₁).skip x) = rs := by
      have hp : (fun x : Doc => !(repoParams t₁).skip x) = fun _ => true := rfl
      rw [hp]
      exact List.filter_true rs
    rw [hfl]
    exact hnd

/-- Idempotence of `store_commits`. -/
theorem store_commits_idem (t₁ t₂ : Nat) (rid : Int) (c rs c₁ : List Doc) (ids₁ : List Value)
    (c₂ : List Doc) (ids₂ : List Value)
    (hwf : WFRecords rs) (hnd : (rs.map (fun r => getField r "sha")).Nodup)
    (h₁ : store_commits t₁ rid c rs = some (c₁, ids₁))
    (h₂ : store_commits t₂ rid c₁ rs = some (c₂, ids₂)) :
    ids₂ = ids₁ ∧ SimEq c₂ c₁ := by
  have hsha : ∀ (t : Nat) (r : Doc),
      getField (setField (add_timestamp t r) "repository_id" (Value.vInt rid)) "sha"
        = getField r "sha" := fun t r => by
    rw [getField_inject_proc, if_neg (by decide), if_neg (by decide)]
  refine upsertLoop_idem_keyed (commitParams t₁ rid) (commitParams t₂ rid)
    (fun r => getField r "sha") (fun s => [("sha", s), ("repository_id", Value.vInt rid)])
    (fun r => rfl) (fun v w hvw => by simpa using hvw)
    (fun v p hp => by
      rcases List.mem_cons.mp hp with hp | hp
      · rw [hp]
        exact (show ("sha" : String) ≠ "collected_at" by decide)
      · simp only [List.mem_singleton] at hp
        rw [hp]
        exact (show ("repository_id" : String) ≠ "collected_at" by decide))
    rs c c₁ ids₁ c₂ ids₂ ?_ ?_ ?_ ?_ ?_ ?_ h₁ h₂
  · intro r hr
    show (getField (setField (add_timestamp t₁ r) "repository_id" (Value.vInt rid)) "sha").map _
      = (getField r "sha").map _
    rw [hsha]
  · intro r hr
    show (getField (setField (add_timestamp t₂ r) "repository_id" (Value.vInt rid)) "sha").map _
      = (getField r "sha").map _
    rw [hsha]
  · intro r hr
    show getField (setField (add_timestamp t₂ r) "repository_id" (Value.vInt rid)) "sha"
      = getField (setField (add_timestamp t₁ r) "repository_id" (Value.vInt rid)) "sha"
    rw [hsha, hsha]
  · intro r hr k hk
    have hn : ∀ t : Nat, ((setField (add_timestamp t r) "repository_id" (Value.vInt rid)).map
        Prod.fst).Nodup := fun t => nodup_keys_setField _ _ _ (nodup_keys_setField r _ _ (hwf r hr))
    show lastVal (setField (add_timestamp t₂ r) "repository_id" (Value.vInt rid)) k
      = lastVal (setField (add_timestamp t₁ r) "repository_id" (Value.vInt rid)) k
    rw [lastVal_eq_getField (setField (add_timestamp t₂ r) "repository_id" (Value.vInt rid)) k
        (hn t₂),
      lastVal_eq_getField (setField (add_timestamp t₁ r) "repository_id" (Value.vInt rid)) k
        (hn t₁)]
    exact getField_inject_time t₂ t₁ rid r k hk
  · intro r hr hs v hv d w
    have hn : ((setField (add_timestamp t₁ r) "repository_id" (Value.vInt rid)).map
        Prod.fst).Nodup := nodup_keys_setField _ _ _ (nodup_keys_setField r _ _ (hwf r hr))
    have hu : getField (setField (add_timestamp t₁ r) "repository_id" (Value.vInt rid)) "sha"
        = some v := by rw [hsha]; exact hv
    have hu2 : getField (setField (add_timestamp t₁ r) "repository_id" (Value.vInt rid))
        "repository_id" = some (Value.vInt rid) := by
      rw [getField_inject_proc, if_pos rfl]
    show matchesFilter [("sha", w), ("repository_id", Value.vInt rid)]
      (setFields d (setField (add_timestamp t₁ r) "repository_id" (Value.vInt rid))) = (w == v)
    rw [matchesFilter_pair,
      getField_setFields_of_write d _ "sha" v hn hu,
      getField_setFields_of_write d _ "repository_id" (Value.vInt rid) hn hu2,
      beq_some_comm]
    simp
  · have hfl : rs.filter (fun x => !(commitParams t₁ rid).skip x) = rs := by
      have hp : (fun x : Doc => !(commitParams t₁ rid).skip x) = fun _ => true := rfl
      rw [hp]
      exact List.filter_true rs
    rw [hfl]
    exact hnd

/-- Idempotence of `store_contributors`. -/
theorem store_contributors_idem (t₁ t₂ : Nat) (rid : Int) (c rs c₁ : List Doc)
    (ids₁ : List Value) (c₂ : List Doc) (ids₂ : List Value)
    (hwf : WFRecords rs) (hnd : (rs.map (fun r => getField r "login")).Nodup)
    (h₁ : store_contributors t₁ rid c rs = some (c₁, ids₁))
    (h₂ : store_contributors t₂ rid c₁ rs = some (c₂, ids₂)) :
    ids₂ = ids₁ ∧ SimEq c₂ c₁ := by
  have hlog : ∀ (t : Nat) (r : Doc),
      getField (setField (add_timestamp t r) "repository_id" (Value.vInt rid)) "login"
        = getField r "login" := fun t r => by
    rw [getField_inject_proc, if_neg (by decide), if_neg (by decide)]
  refine upsertLoop_idem_keyed (contributorParams t₁ rid) (contributorParams t₂ rid)
    (fun r => getField r "login") (fun l => [("login", l), ("repository_id", Value.vInt rid)])
    (fun r => rfl) (fun v w hvw => by simpa using hvw)
    (fun v p hp => by
      rcases List.mem_cons.mp hp with hp | hp
      · rw [hp]
        exact (show ("login" : String) ≠ "collected_at" by decide)
      · simp only [List.mem_singleton] at hp
        rw [hp]
        exact (show ("repository_id" : String) ≠ "collected_at" by decide))
    rs c c₁ ids₁ c₂ ids₂ ?_ ?_ ?_ ?_ ?_ ?_ h₁ h₂
  · intro r hr
    show (getField (setField (add_timestamp t₁ r) "repository_id" (Value.vInt rid)) "login").map _
      = (getField r "login").map _
    rw [hlog]
  · intro r hr
    show (getField (setField (add_timestamp t₂ r) "repository_id" (Value.vInt rid)) "login").map _
      = (getField r "login").map _
    rw [hlog]
  · intro r hr
    show getField (setField (add_timestamp t₂ r) "repository_id" (Value.vInt rid)) "login"
      = getField (setField (add_timestamp t₁ r) "repository_id" (Value.vInt rid)) "login"
    rw [hlog, hlog]
  · intro r hr k hk
    have hn : ∀ t : Nat, ((setField (add_timestamp t r) "repository_id" (Value.vInt rid)).map
        Prod.fst).Nodup := fun t => nodup_keys_setField _ _ _ (nodup_keys_setField r _ _ (hwf r hr))
    show lastVal (setField (add_timestamp t₂ r) "repository_id" (Value.vInt rid)) k
      = lastVal (setField (add_timestamp t₁ r) "repository_id" (Value.vInt rid)) k
    rw [lastVal_eq_getField (setField (add_timestamp t₂ r) "repository_id" (Value.vInt rid)) k
        (hn t₂),
      lastVal_eq_getField (setField (add_timestamp t₁ r) "repository_id" (Value.vInt rid)) k
        (hn t₁)]
    exact getField_inject_time t₂ t₁ rid r k hk
  · intro r hr hs v hv d w
    have hn : ((setField (add_timestamp t₁ r) "repository_id" (Value.vInt rid)).map
        Prod.fst).Nodup := nodup_keys_setField _ _ _ (nodup_keys_setField r _ _ (hwf r hr))
    have hu : getField (setField (add_timestamp t₁ r) "repository_id" (Value.vInt rid)) "login"
        = some v := by rw [hlog]; exact hv
    have hu2 : getField (setField (add_timestamp t₁ r) "repository_id" (Value.vInt rid))
        "repository_id" = some (Value.vInt rid) := by
      rw [getField_inject_proc, if_pos rfl]
    show matchesFilter [("login", w), ("repository_id", Value.vInt rid)]
      (setFields d (setField (add_timestamp t₁ r) "repository_id" (Value.vInt rid))) = (w == v)
    rw [matchesFilter_pair,
      getField_setFields_of_write d _ "login" v hn hu,
      getField_setFields_of_write d _ "repository_id" (Value.vInt rid) hn hu2,
      beq_some_comm]
    simp
  · have hfl : rs.filter (fun x => !(contributorParams t₁ rid).skip x) = rs := by
      have hp : (fun x : Doc => !(contributorParams t₁ rid).skip x) = fun _ => true := rfl
      rw [hp]
      exact List.filter_true rs
    rw [hfl]
    exact hnd

/-- Idempotence of `store_pull_requests`. -/
theorem store_pull_requests_idem (t₁ t₂ : Nat) (rid : Int) (c rs c₁ : List Doc)
    (ids₁ : List Value) (c₂ : List Doc) (ids₂ : List Value)
    (hwf : WFRecords rs) (hnd : (rs.map (fun r => getField r "id")).Nodup)
    (h₁ : store_pull_requests t₁ rid c rs = some (c₁, ids₁))
    (h₂ : store_pull_requests t₂ rid c₁ rs = some (c₂, ids₂)) :
    ids₂ = ids₁ ∧ SimEq c₂ c₁ := by
  have hkid : ∀ (t : Nat) (r : Doc) (k : String), k ≠ "repository_id" → k ≠ "collected_at" →
      getField (setField (add_timestamp t r) "repository_id" (Value.vInt rid)) k
        = getField r k := fun t r k h1 h2 => by
    rw [getField_inject_proc, if_neg h1, if_neg h2]
  refine upsertLoop_idem_keyed (prParams t₁ rid) (prParams t₂ rid)
    (fun r => getField r "id") (fun v => [("id", v)])
    (fun r => rfl) (fun v w hvw => by simpa using hvw)
    (fun v p hp => by
      simp only [List.mem_singleton] at hp
      rw [hp]
      exact (show ("id" : String) ≠ "collected_at" by decide))
    rs c c₁ ids₁ c₂ ids₂ ?_ ?_ ?_ ?_ ?_ ?_ h₁ h₂
  · intro r hr
    show (getField (setField (add_timestamp t₁ r) "repository_id" (Value.vInt rid)) "id").map _
      = (getField r "id").map _
    rw [hkid t₁ r "id" (by decide) (by decide)]
  · intro r hr
    show (getField (setField (add_timestamp t₂ r) "repository_id" (Value.vInt rid)) "id").map _
      = (getField r "id").map _
    rw [hkid t₂ r "id" (by decide) (by decide)]
  · intro r hr
    show getField (setField (add_timestamp t₂ r) "repository_id" (Value.vInt rid)) "number"
      = getField (setField (add_timestamp t₁ r) "repository_id" (Value.vInt rid)) "number"
    rw [hkid t₂ r "number" (by decide) (by decide), hkid t₁ r "number" (by decide) (by decide)]
  · intro r hr k hk
    have hn : ∀ t : Nat, ((setField (add_timestamp t r) "repository_id" (Value.vInt rid)).map
        Prod.fst).Nodup := fun t => nodup_keys_setField _ _ _ (nodup_keys_setField r _ _ (hwf r hr))
    show lastVal (setField (add_timestamp t₂ r) "repository_id" (Value.vInt rid)) k
      = lastVal (setField (add_timestamp t₁ r) "repository_id" (Value.vInt rid)) k
    rw [lastVal_eq_getField (setField (add_timestamp t₂ r) "repository_id" (Value.vInt rid)) k
        (hn t₂),
      lastVal_eq_getField (setField (add_timestamp t₁ r) "repository_id" (Value.vInt rid)) k
        (hn t₁)]
    exact getField_inject_time t₂ t₁ rid r k hk
  · intro r hr hs v hv d w
    have hn : ((setField (add_timestamp t₁ r) "repository_id" (Value.vInt rid)).map
        Prod.fst).Nodup := nodup_keys_setField _ _ _ (nodup_keys_setField r _ _ (hwf r hr))
    have hu : getField (setField (add_timestamp t₁ r) "repository_id" (Value.vInt rid)) "id"
        = some v := by rw [hkid t₁ r "id" (by decide) (by decide)]; exact hv
    show matchesFilter [("id", w)]
      (setFields d (setField (add_timestamp t₁ r) "repository_id" (Value.vInt rid))) = (w == v)
    rw [matchesFilter_single,
      getField_setFields_of_write d _ "id" v hn hu,
      beq_some_comm]
  · have hfl : rs.filter (fun x => !(prParams t₁ rid).skip x) = rs := by
      have hp : (fun x : Doc => !(prParams t₁ rid).skip x) = fun _ => true := rfl
      rw [hp]
      exact List.filter_true rs
    rw [hfl]
    exact hnd

/-- Idempotence of `store_issues`. -/
theorem store_issues_idem (t₁ t₂ : Nat) (rid : Int) (c rs c₁ : List Doc)
    (ids₁ : List Value) (c₂ : List Doc) (ids₂ : List Value)
    (hwf : WFRecords rs)
    (hnd : ((rs.filter (fun i => !hasKey i "pull_request")).map
      (fun r => getField r "id")).Nodup)
    (h₁ : store_issues t₁ rid c rs = some (c₁, ids₁))
    (h₂ : store_issues t₂ rid c₁ rs = some (c₂, ids₂)) :
    ids₂ = ids₁ ∧ SimEq c₂ c₁ := by
  have hkid : ∀ (t : Nat) (r : Doc) (k : String), k ≠ "repository_id" → k ≠ "collected_at" →
      getField (setField (add_timestamp t r) "repository_id" (Value.vInt rid)) k
        = getField r k := fun t r k h1 h2 => by
    rw [getField_inject_proc, if_neg h1, if_neg h2]
  refine upsertLoop_idem_keyed (issueParams t₁ rid) (issueParams t₂ rid)
    (fun r => getField r "id") (fun v => [("id", v)])
    (fun r => rfl) (fun v w hvw => by simpa using hvw)
    (fun v p hp => by
      simp only [List.mem_singleton] at hp
      rw [hp]
      exact (show ("id" : String) ≠ "collected_at" by decide))
    rs c c₁ ids₁ c₂ ids₂ ?_ ?_ ?_ ?_ ?_ ?_ h₁ h₂
  · intro r hr
    show (getField (setField (add_timestamp t₁ r) "repository_id" (Value.vInt rid)) "id").map _
      = (getField r "id").map _
    rw [hkid t₁ r "id" (by decide) (by decide)]
  · intro r hr
    show (getField (setField (add_timestamp t₂ r) "repository_id" (Value.vInt rid)) "id").map _
      = (getField r "id").map _
    rw [hkid t₂ r "id" (by decide) (by decide)]
  · intro r hr
    show getField (setField (add_timestamp t₂ r) "repository_id" (Value.vInt rid)) "number"
      = getField (setField (add_timestamp t₁ r) "repository_id" (Value.vInt rid)) "number"
    rw [hkid t₂ r "number" (by decide) (by decide), hkid t₁ r "number" (by decide) (by decide)]
  · intro r hr k hk
    have hn : ∀ t : Nat, ((setField (add_timestamp t r) "repository_id" (Value.vInt rid)).map
        Prod.fst).Nodup := fun t => nodup_keys_setField _ _ _ (nodup_keys_setField r _ _ (hwf r hr))
    show lastVal (setField (add_timestamp t₂ r) "repository_id" (Value.vInt rid)) k
      = lastVal (setField (add_timestamp t₁ r) "repository_id" (Value.vInt rid)) k
    rw [lastVal_eq_getField (setField (add_timestamp t₂ r) "repository_id" (Value.vInt rid)) k
        (hn t₂),
      lastVal_eq_getField (setField (add_timestamp t₁ r) "repository_id" (Value.vInt rid)) k
        (hn t₁)]
    exact getField_inject_time t₂ t₁ rid r k hk
  · intro r hr hs v hv d w
    have hn : ((setField (add_timestamp t₁ r) "repository_id" (Value.vInt rid)).map
        Prod.fst).Nodup := nodup_keys_setField _ _ _ (nodup_keys_setField r _ _ (hwf r hr))
    have hu : getField (setField (add_timestamp t₁ r) "repository_id" (Value.vInt rid)) "id"
        = some v := by rw [hkid t₁ r "id" (by decide) (by decide)]; exact hv
    show matchesFilter [("id", w)]
      (setFields d (setField (add_timestamp t₁ r) "repository_id" (Value.vInt rid))) = (w == v)
    rw [matchesFilter_single,
      getField_setFields_of_write d _ "id" v hn hu,
      beq_some_comm]
  · exact hnd

/-- Idempotence of `store_comments`. -/
theorem store_comments_idem (t₁ t₂ : Nat) (rid : Int) (iid pid : Option Int)
    (c rs c₁ : List Doc) (ids₁ : List Value) (c₂ : List Doc) (ids₂ : List Value)
    (hwf : WFRecords rs) (hnd : (rs.map (fun r => getField r "id")).Nodup)
    (h₁ : store_comments t₁ rid iid pid c rs = some (c₁, ids₁))
    (h₂ : store_comments t₂ rid iid pid c₁ rs = some (c₂, ids₂)) :
    ids₂ = ids₁ ∧ SimEq c₂ c₁ := by
  have hkid : ∀ (t : Nat) (r : Doc),
      getField ((commentParams t rid iid pid).proc r) "id" = getField r "id" := fun t r =>
    getField_comment_proc_ne t rid iid pid r "id" (by decide) (by decide) (by decide) (by decide)
  refine upsertLoop_idem_keyed (commentParams t₁ rid iid pid) (commentParams t₂ rid iid pid)
    (fun r => getField r "id") (fun v => [("id", v)])
    (fun r => rfl) (fun v w hvw => by simpa using hvw)
    (fun v p hp => by
      simp only [List.mem_singleton] at hp
      rw [hp]
      exact (show ("id" : String) ≠ "collected_at" by decide))
    rs c c₁ ids₁ c₂ ids₂ ?_ ?_ ?_ ?_ ?_ ?_ h₁ h₂
  · intro r hr
    show (getField ((commentParams t₁ rid iid pid).proc r) "id").map _
      = (getField r "id").map _
    rw [hkid]
  · intro r hr
    show (getField ((commentParams t₂ rid iid pid).proc r) "id").map _
      = (getField r "id").map _
    rw [hkid]
  · intro r hr
    show getField ((commentParams t₂ rid iid pid).proc r) "id"
      = getField ((commentParams t₁ rid iid pid).proc r) "id"
    rw [hkid, hkid]
  · intro r hr k hk
    have hn : ∀ t : Nat, (((commentParams t rid iid pid).proc r).map Prod.fst).Nodup :=
      fun t => nodup_keys_comment_proc t rid iid pid r (hwf r hr)
    show lastVal ((commentParams t₂ rid iid pid).proc r) k
      = lastVal ((commentParams t₁ rid iid pid).proc r) k
    rw [lastVal_eq_getField ((commentParams t₂ rid iid pid).proc r) k (hn t₂),
      lastVal_eq_getField ((commentParams t₁ rid iid pid).proc r) k (hn t₁)]
    exact getField_comment_proc_time t₂ t₁ rid iid pid r k hk
  · intro r hr hs v hv d w
    have hn : (((commentParams t₁ rid iid pid).proc r).map Prod.fst).Nodup :=
      nodup_keys_comment_proc t₁ rid iid pid r (hwf r hr)
    have hu : getField ((commentParams t₁ rid iid pid).proc r) "id" = some v := by
      rw [hkid]; exact hv
    show matchesFilter [("id", w)]
      (setFields d ((commentParams t₁ rid iid pid).proc r)) = (w == v)
    rw [matchesFilter_single,
      getField_setFields_of_write d _ "id" v hn hu,
      beq_some_comm]
  · have hfl : rs.filter (fun x => !(commentParams t₁ rid iid pid).skip x) = rs := by
      have hp : (fun x : Doc => !(commentParams t₁ rid iid pid).skip x) = fun _ => true := rfl
      rw [hp]
      exact List.filter_true rs
    rw [hfl]
    exact hnd

/-- Claim C1: upsert is idempotent.  For each of the six store operations,
running the store twice on the same record batch (at write clocks t₁ then
t₂) over any starting collection yields, after the second run, the same
returned key list and a collection with the same document count and — at
every position and every field other than `collected_at` — the same
content as after the first run (`SimEq`): re-ingesting an existing natural
key creates no new document, only a timestamp refresh.  Hypotheses:
records are Python dicts, hence duplicate-key-free (`WFRecords`), and the
batch carries no duplicate natural key (for `store_issues`, among the
records that survive the pull-request-marker filter). -/
theorem c1_upsert_idempotent :
    (∀ (t₁ t₂ : Nat) (c rs c₁ : List Doc) (ids₁ : List Value) (c₂ : List Doc)
      (ids₂ : List Value), WFRecords rs →
      (rs.map (fun r => getField r "id")).Nodup →
      store_repositories t₁ c rs = some (c₁, ids₁) →
      store_repositories t₂ c₁ rs = some (c₂, ids₂) →
      ids₂ = ids₁ ∧ SimEq c₂ c₁) ∧
    (∀ (t₁ t₂ : Nat) (rid : Int) (c rs c₁ : List Doc) (ids₁ : List Value) (c₂ : List Doc)
      (ids₂ : List Value), WFRecords rs →
      (rs.map (fun r => getField r "sha")).Nodup →
      store_commits t₁ rid c rs = some (c₁, ids₁) →
      store_commits t₂ rid c₁ rs = some (c₂, ids₂) →
      ids₂ = ids₁ ∧ SimEq c₂ c₁) ∧
    (∀ (t₁ t₂ : Nat) (rid : Int) (c rs c₁ : List Doc) (ids₁ : List Value) (c₂ : List Doc)
      (ids₂ : List Value), WFRecords rs →
      (rs.map (fun r => getField r "login")).Nodup →
      store_contributors t₁ rid c rs = some (c₁, ids₁) →
      store_contributors t₂ rid c₁ rs = some (c₂, ids₂) →
      ids₂ = ids₁ ∧ SimEq c₂ c₁) ∧
    (∀ (t₁ t₂ : Nat) (rid : Int) (c rs c₁ : List Doc) (ids₁ : List Value) (c₂ : List Doc)
      (ids₂ : List Value), WFRecords rs →
      (rs.map (fun r => getField r "id")).Nodup →
      store_pull_requests t₁ rid c rs = some (c₁, ids₁) →
      store_pull_requests t₂ rid c₁ rs = some (c₂, ids₂) →
      ids₂ = ids₁ ∧ SimEq c₂ c₁) ∧
    (∀ (t₁ t₂ : Nat) (rid : Int) (c rs c₁ : List Doc) (ids₁ : List Value) (c₂ : List Doc)
      (ids₂ : List Value), WFRecords rs →
      ((rs.filter (fun i => !hasKey i "pull_request")).map (fun r => getField r "id")).Nodup →
      store_issues t₁ rid c rs = some (c₁, ids₁) →
      store_issues t₂ rid c₁ rs = some (c₂, ids₂) →
      ids₂ = ids₁ ∧ SimEq c₂ c₁) ∧
    (∀ (t₁ t₂ : Nat) (rid : Int) (iid pid : Option Int) (c rs c₁ : List Doc)
      (ids₁ : List Value) (c₂ : List Doc) (ids₂ : List Value), WFRecords rs →
      (rs.map (fun r => getField r "id")).Nodup →
      store_comments t₁ rid iid pid c rs = some (c₁, ids₁) →
      store_comments t₂ rid iid pid c₁ rs = some (c₂, ids₂) →
      ids₂ = ids₁ ∧ SimEq c₂ c₁) :=
  ⟨fun t₁ t₂ c rs c₁ ids₁ c₂ ids₂ hwf hnd h₁ h₂ =>
      store_repositories_idem t₁ t₂ c rs c₁ ids₁ c₂ ids₂ hwf hnd h₁ h₂,
    fun t₁ t₂ rid c rs c₁ ids₁ c₂ ids₂ hwf hnd h₁ h₂ =>
      store_commits_idem t₁ t₂ rid c rs c₁ ids₁ c₂ ids₂ hwf hnd h₁ h₂,
    fun t₁ t₂ rid c rs c₁ ids₁ c₂ ids₂ hwf hnd h₁ h₂ =>
      store_contributors_idem t₁ t₂ rid c rs c₁ ids₁ c₂ ids₂ hwf hnd h₁ h₂,
    fun t₁ t₂ rid c rs c₁ ids₁ c₂ ids₂ hwf hnd h₁ h₂ =>
      store_pull_requests_idem t₁ t₂ rid c rs c₁ ids₁ c₂ ids₂ hwf hnd h₁ h₂,
    fun t₁ t₂ rid c rs c₁ ids₁ c₂ ids₂ hwf hnd h₁ h₂ =>
      store_issues_idem t₁ t₂ rid c rs c₁ ids₁ c₂ ids₂ hwf hnd h₁ h₂,
    fun t₁ t₂ rid iid pid c rs c₁ ids₁ c₂ ids₂ hwf hnd h₁ h₂ =>
      store_comments_idem t₁ t₂ rid iid pid c rs c₁ ids₁ c₂ ids₂ hwf hnd h₁ h₂⟩

/-- Witness for C1: a one-repository batch stored at clock 5 and re-stored
at clock 9 keeps one document, returns the same key list, and differs only
in `collected_at`. -/
theorem c1_witness :
    WFRecords [[("id", Value.vInt 1)]] ∧
    (([[("id", Value.vInt 1)]] : List Doc).map (fun r => getField r "id")).Nodup ∧
    store_repositories 5 [] [[("id", Value.vInt 1)]]
      = some ([[("id", Value.vInt 1), ("collected_at", Value.vTime 5)]], [Value.vStr "1"]) ∧
    store_repositories 9 [[("id", Value.vInt 1), ("collected_at", Value.vTime 5)]]
        [[("id", Value.vInt 1)]]
      = some ([[("id", Value.vInt 1), ("collected_at", Value.vTime 9)]], [Value.vStr "1"]) ∧
    ([Value.vStr "1"] = [Value.vStr "1"] ∧
      SimEq [[("id", Value.vInt 1), ("collected_at", Value.vTime 9)]]
        [[("id", Value.vInt 1), ("collected_at", Value.vTime 5)]]) :=
  ⟨by unfold WFRecords; decide, by decide, by decide, by decide,
    c1_upsert_idempotent.1 5 9 [] [[("id", Value.vInt 1)]]
      [[("id", Value.vInt 1), ("collected_at", Value.vTime 5)]] [Value.vStr "1"]
      [[("id", Value.vInt 1), ("collected_at", Value.vTime 9)]] [Value.vStr "1"]
      (by unfold WFRecords; decide) (by decide) (by decide) (by decide)⟩
